import Mathlib

/-!
Verification development for the github-enterprise MCP server.

This file shallowly embeds the core of the server — the error taxonomy
(src/mcp-sdk/types.js, src/utils/github-api.ts, src/utils/error-handling.ts),
the zod validation schemas (src/utils/validation.ts), the file tools
(src/tools/files.ts) and the CallTool dispatcher (src/index.ts) — and proves
or refutes the frozen specification claims about them.

The remote GitHub service is modelled as a deterministic in-memory state
(`RemoteState`) with a fault-injection table at the adapter boundary; every
adapter (octokit) invocation is recorded in a call trace so that claims about
call counts and call ordering can be stated.
-/

namespace GhMcp

/-- Error code constants, transcribed from the ErrorCode table in
src/mcp-sdk/types.js. -/
def ErrorCode.ParseError : Int := -32700

def ErrorCode.InvalidRequest : Int := -32600

def ErrorCode.MethodNotFound : Int := -32601

def ErrorCode.InvalidParams : Int := -32602

def ErrorCode.InternalError : Int := -32603

def ErrorCode.ConfigurationError : Int := -32000

def ErrorCode.Unauthorized : Int := -32001

def ErrorCode.Forbidden : Int := -32003

def ErrorCode.NotFound : Int := -32004

/-- The McpError class from src/mcp-sdk/types.js: a code plus a message. -/
structure McpError where
  code : Int
  message : String
deriving DecidableEq

/-- A JavaScript-level error as the adapter sees it: either a raw octokit HTTP
error carrying an optional upstream `status` (and optionally a
`response.data.message`), or an already-classified `McpError` instance. -/
inductive JsError where
  | raw (status : Option Nat) (message : String) (respMessage : Option String)
  | mcp (e : McpError)
deriving DecidableEq

/-- The `error.status` field read by `branchExists` and by the per-file probe
in `pushFiles`; an `McpError` has no `status` field, so it reads as absent. -/
def JsError.statusField : JsError → Option Nat
  | .raw s _ _ => s
  | .mcp _ => none

/-- The `error.message` field. -/
def JsError.messageField : JsError → String
  | .raw _ m _ => m
  | .mcp e => e.message

/-- GitHubApi.handleApiError from src/utils/github-api.ts: an McpError is
returned unchanged; otherwise the upstream HTTP status (default 500) is mapped
through the switch 400/422 to InvalidParams, 401 to Unauthorized, 403 to
Forbidden, 404 to NotFound, anything else to InternalError, and a new McpError
is built from the message (empty JS message falls back, mirroring
`error.message || 'Unknown GitHub API error'`). -/
def handleApiError : JsError → McpError
  | .mcp e => e
  | .raw st msg resp =>
    let status := st.getD 500
    let message := if msg = "" then "Unknown GitHub API error" else msg
    let response := resp.getD ""
    let errorCode : Int :=
      if status = 400 then ErrorCode.InvalidParams
      else if status = 401 then ErrorCode.Unauthorized
      else if status = 403 then ErrorCode.Forbidden
      else if status = 404 then ErrorCode.NotFound
      else if status = 422 then ErrorCode.InvalidParams
      else ErrorCode.InternalError
    { code := errorCode
      message := "GitHub API Error: " ++ message ++
        (if response = "" then "" else " - " ++ response) }

/-- tryCatchAsync from src/utils/error-handling.ts, on the result of the
wrapped computation: an McpError thrown inside is rethrown unchanged; any
other error is wrapped into an InternalError with the custom message
prefixed. -/
def tryCatchAsync {α : Type} (r : Except JsError α) (errorMessage : String) :
    Except McpError α :=
  match r with
  | .ok v => .ok v
  | .error (.mcp e) => .error e
  | .error e => .error
      { code := ErrorCode.InternalError
        message := errorMessage ++ ": " ++ e.messageField }

/-! JSON-ish values and the zod validation layer (src/utils/validation.ts).
An argument bag is a `JValue`; object fields are an association list with
first-match lookup. -/

inductive JValue where
  | str (s : String)
  | num (n : Int)
  | bool (b : Bool)
  | arr (xs : List JValue)
  | obj (fields : List (String × JValue))
  | null

/-- First-match association-list lookup, used for object field access. -/
def assocLookup {α : Type} (l : List (String × α)) (k : String) : Option α :=
  match l with
  | [] => none
  | (k', v) :: rest => if k' = k then some v else assocLookup rest k

/-- Fields of an object value (a non-object has none). -/
def JValue.fieldsOf : JValue → List (String × JValue)
  | .obj fields => fields
  | _ => []

/-- String payload of a value, if it is a string. -/
def JValue.asString : JValue → Option String
  | .str s => some s
  | _ => none

/-- Parse a required `z.string().min(1, msg)` field: a missing key is a
`Required` issue, a non-string is a type issue, an empty string yields the
schema's custom minimum-length message. zod reports all issues at once; this
model reports the first one, which preserves accept/reject behaviour. -/
def zReqString (msg : String) (v : Option JValue) : Except String String :=
  match v with
  | none => .error "Required"
  | some (.str s) => if 1 ≤ s.length then .ok s else .error msg
  | some _ => .error "Expected string"

/-- Parse an optional `z.string().optional()` field. -/
def zOptString (v : Option JValue) : Except String (Option String) :=
  match v with
  | none => .ok none
  | some (.str s) => .ok (some s)
  | some _ => .error "Expected string"

/-- Typed result of OwnerRepoSchema. -/
structure OwnerRepoArgs where
  owner : String
  repo : String
deriving DecidableEq

/-- OwnerRepoSchema from src/utils/validation.ts. zod objects default to
strip mode: undeclared keys are ignored, not rejected. -/
def OwnerRepoSchema.parse (v : JValue) : Except String OwnerRepoArgs :=
  match v with
  | .obj fields => do
    let owner ← zReqString "Repository owner is required" (assocLookup fields "owner")
    let repo ← zReqString "Repository name is required" (assocLookup fields "repo")
    pure { owner := owner, repo := repo }
  | _ => .error "Expected object"

/-- One element of the `files` array of PushFilesSchema. -/
structure PushFileEntry where
  path : String
  content : String
deriving DecidableEq

/-- Parse one `files` element: an object with required path and content. -/
def zFileEntry (v : JValue) : Except String PushFileEntry :=
  match v with
  | .obj fields => do
    let path ← zReqString "File path is required" (assocLookup fields "path")
    let content ← zReqString "File content is required" (assocLookup fields "content")
    pure { path := path, content := content }
  | _ => .error "Expected object"

/-- Typed result of PushFilesSchema. -/
structure PushFilesArgs where
  owner : String
  repo : String
  branch : String
  files : List PushFileEntry
  message : String
deriving DecidableEq

/-- Parse the required `files` field of PushFilesSchema: a zod array of file
entries with minimum length 1. -/
def zFilesField (v : Option JValue) : Except String (List PushFileEntry) :=
  match v with
  | none => .error "Required"
  | some (.arr xs) => do
    let parsed ← xs.mapM zFileEntry
    if 1 ≤ parsed.length then pure parsed
    else .error "At least one file is required"
  | some _ => .error "Expected array"

/-- PushFilesSchema from src/utils/validation.ts: OwnerRepoSchema extended
with branch, a non-empty files array, and message. -/
def PushFilesSchema.parse (v : JValue) : Except String PushFilesArgs :=
  match v with
  | .obj fields => do
    let owner ← zReqString "Repository owner is required" (assocLookup fields "owner")
    let repo ← zReqString "Repository name is required" (assocLookup fields "repo")
    let branch ← zReqString "Branch name is required" (assocLookup fields "branch")
    let files ← zFilesField (assocLookup fields "files")
    let message ← zReqString "Commit message is required" (assocLookup fields "message")
    pure { owner := owner, repo := repo, branch := branch, files := files, message := message }
  | _ => .error "Expected object"

/-- Typed result of CreateOrUpdateFileSchema. -/
structure CreateOrUpdateFileArgs where
  owner : String
  repo : String
  path : String
  content : String
  message : String
  branch : String
  sha : Option String
deriving DecidableEq

/-- CreateOrUpdateFileSchema from src/utils/validation.ts. -/
def CreateOrUpdateFileSchema.parse (v : JValue) : Except String CreateOrUpdateFileArgs :=
  match v with
  | .obj fields => do
    let owner ← zReqString "Repository owner is required" (assocLookup fields "owner")
    let repo ← zReqString "Repository name is required" (assocLookup fields "repo")
    let path ← zReqString "File path is required" (assocLookup fields "path")
    let content ← zReqString "File content is required" (assocLookup fields "content")
    let message ← zReqString "Commit message is required" (assocLookup fields "message")
    let branch ← zReqString "Branch name is required" (assocLookup fields "branch")
    let sha ← zOptString (assocLookup fields "sha")
    pure { owner := owner, repo := repo, path := path, content := content,
           message := message, branch := branch, sha := sha }
  | _ => .error "Expected object"

/-- Typed result of GetFileContentsSchema. -/
structure GetFileContentsArgs where
  owner : String
  repo : String
  path : String
  branch : Option String
deriving DecidableEq

/-- GetFileContentsSchema from src/utils/validation.ts. -/
def GetFileContentsSchema.parse (v : JValue) : Except String GetFileContentsArgs :=
  match v with
  | .obj fields => do
    let owner ← zReqString "Repository owner is required" (assocLookup fields "owner")
    let repo ← zReqString "Repository name is required" (assocLookup fields "repo")
    let path ← zReqString "File path is required" (assocLookup fields "path")
    let branch ← zOptString (assocLookup fields "branch")
    pure { owner := owner, repo := repo, path := path, branch := branch }
  | _ => .error "Expected object"

/-! Content codecs (src/utils/error-handling.ts `utf8ToBase64` / `base64ToUtf8`).

Modelled from the spec: the source delegates to Node's `Buffer`, which is not
part of this repository; the spec requires a byte-identical round trip for
arbitrary UTF-8 text, so standard UTF-8 and RFC 4648 base64 are modelled here
over character lists and byte (Nat) lists. -/

/-- UTF-8 encoding of one Unicode scalar value, as the standard four ranges. -/
def utf8EncodeChar (c : Char) : List Nat :=
  if c.toNat < 0x80 then [c.toNat]
  else if c.toNat < 0x800 then [0xC0 + c.toNat / 64, 0x80 + c.toNat % 64]
  else if c.toNat < 0x10000 then
    [0xE0 + c.toNat / 4096, 0x80 + c.toNat / 64 % 64, 0x80 + c.toNat % 64]
  else
    [0xF0 + c.toNat / 262144, 0x80 + c.toNat / 4096 % 64, 0x80 + c.toNat / 64 % 64,
     0x80 + c.toNat % 64]

/-- UTF-8 encoding of a character list. -/
def utf8Encode (l : List Char) : List Nat :=
  (l.map utf8EncodeChar).flatten

/-- One UTF-8 decoding step: from a leading byte and the remaining bytes,
the decoded scalar value and the bytes after the sequence; `none` on a
truncated sequence. -/
def utf8DecodeStep (b0 : Nat) (rest : List Nat) : Option (Nat × List Nat) :=
  if b0 < 0x80 then some (b0, rest)
  else if b0 < 0xE0 then
    match rest with
    | b1 :: rest1 => some ((b0 - 0xC0) * 64 + (b1 - 0x80), rest1)
    | [] => none
  else if b0 < 0xF0 then
    match rest with
    | b1 :: b2 :: rest2 => some ((b0 - 0xE0) * 4096 + (b1 - 0x80) * 64 + (b2 - 0x80), rest2)
    | _ => none
  else
    match rest with
    | b1 :: b2 :: b3 :: rest3 =>
      some ((b0 - 0xF0) * 262144 + (b1 - 0x80) * 4096 + (b2 - 0x80) * 64 + (b3 - 0x80), rest3)
    | _ => none

/-- Fuel-driven UTF-8 decoding loop; each step consumes at least one byte, so
the list's length is always enough fuel. -/
def utf8DecodeAux : Nat → List Nat → List Char
  | _, [] => []
  | 0, _ :: _ => []
  | fuel + 1, b0 :: rest =>
    match utf8DecodeStep b0 rest with
    | some (n, rest1) => Char.ofNat n :: utf8DecodeAux fuel rest1
    | none => []

/-- UTF-8 decoding. On valid encodings this inverts `utf8Encode`; malformed
suffixes are truncated (their handling is irrelevant to the round-trip claim,
which only evaluates the decoder on encoder output). -/
def utf8Decode (l : List Nat) : List Char := utf8DecodeAux l.length l

/-- The base64 alphabet of RFC 4648. -/
def b64Chars : List Char :=
  "ABCDEFGHIJKLMNOPQRSTUVWXYZabcdefghijklmnopqrstuvwxyz0123456789+/".toList

/-- Character for a sextet value (values are always below 64 here). -/
def b64Char (n : Nat) : Char := b64Chars.getD n '='

/-- Index of a character in the base64 alphabet. -/
def b64Index (c : Char) : Option Nat := b64Chars.indexOf? c

/-- Base64 encoding over bytes, three at a time, with `=` padding. -/
def base64Encode : List Nat → List Char
  | [] => []
  | [b0] => [b64Char (b0 / 4), b64Char (b0 % 4 * 16), '=', '=']
  | [b0, b1] => [b64Char (b0 / 4), b64Char (b0 % 4 * 16 + b1 / 16), b64Char (b1 % 16 * 4), '=']
  | b0 :: b1 :: b2 :: rest =>
    b64Char (b0 / 4) :: b64Char (b0 % 4 * 16 + b1 / 16) ::
      b64Char (b1 % 16 * 4 + b2 / 64) :: b64Char (b2 % 64) :: base64Encode rest

/-- Base64 decoding, four characters at a time, honouring `=` padding;
input outside the encoder's image is truncated. -/
def base64Decode : List Char → List Nat
  | c0 :: c1 :: c2 :: c3 :: rest =>
    (match b64Index c0, b64Index c1 with
     | some v0, some v1 =>
       let byte0 := v0 * 4 + v1 / 16
       if c2 = '=' then [byte0]
       else
         match b64Index c2 with
         | some v2 =>
           let byte1 := v1 % 16 * 16 + v2 / 4
           if c3 = '=' then [byte0, byte1]
           else
             match b64Index c3 with
             | some v3 => byte0 :: byte1 :: (v2 % 4 * 64 + v3) :: base64Decode rest
             | none => []
         | none => []
     | _, _ => [])
  | _ => []

/-- utf8ToBase64 from src/utils/error-handling.ts
(`Buffer.from(utf8, 'utf-8').toString('base64')`). -/
def utf8ToBase64 (utf8 : String) : String :=
  ⟨base64Encode (utf8Encode utf8.data)⟩

/-- base64ToUtf8 from src/utils/error-handling.ts
(`Buffer.from(base64, 'base64').toString('utf-8')`). -/
def base64ToUtf8 (base64 : String) : String :=
  ⟨utf8Decode (base64Decode base64.data)⟩

/-! The mock remote service. Each octokit primitive used by the embedded code
is an `ApiCall`; the remote is a deterministic in-memory state with a
fault-injection table consulted at the adapter boundary, and every call is
recorded in a trace. -/

/-- One tree entry sent to `git.createTree` (files.ts lines 107-112). -/
structure TreeEntry where
  path : String
  mode : String
  type : String
  content : String
deriving DecidableEq

/-- The octokit primitives invoked by the embedded code, with their
arguments. -/
inductive ApiCall where
  | getRef (owner repo ref : String)
  | createRef (owner repo ref sha : String)
  | getCommit (owner repo commitSha : String)
  | getContent (owner repo path : String) (ref : Option String)
  | createTree (owner repo baseTree : String) (tree : List TreeEntry)
  | createCommit (owner repo message treeSha : String) (parents : List String)
  | updateRef (owner repo ref sha : String)
  | getRepo (owner repo : String)
  | createOrUpdateContents (owner repo path message content branch : String) (sha : Option String)
  | createFork (owner repo organization : Option String)
  | listPullFiles (owner repo : Option String) (pullNumber : Option Int)
deriving DecidableEq

/-- What a file/directory entry of the mock repository looks like to
`repos.getContent`: a directory flag, a blob sha, and (for files) the
base64-encoded content the real API would return. -/
structure ContentInfo where
  isDir : Bool
  sha : String
  content : Option String
deriving DecidableEq

/-- Response payloads of the mock remote; each call form always receives the
matching variant. -/
inductive ApiResp where
  | ref (sha : String)
  | commit (treeSha : String)
  | content (info : ContentInfo)
  | tree (sha : String)
  | newCommit (sha : String)
  | repoInfo (defaultBranch : String)
  | contentWritten (contentSha commitSha : String)
  | forkData
  | pullFiles
deriving DecidableEq

/-- The in-memory remote: configured adapter base URL (GITHUB_API_URL, unused
by any request logic), the repository's default branch, refs keyed by strings
of the form `heads/branchname`, a commit-sha to tree-sha table, a path to
content table, a counter producing fresh content hashes, and a fault table
injecting an error for matching calls at the adapter boundary. -/
structure RemoteState where
  baseUrl : Option String
  defaultBranch : String
  refs : List (String × String)
  commits : List (String × String)
  contents : List (String × ContentInfo)
  counter : Nat
  faults : List (ApiCall × JsError)
deriving DecidableEq

/-- Fresh content hash produced by the mock remote for created objects. -/
def freshSha (n : Nat) : String := "sha-" ++ toString n

/-- Update the value of an existing key in an association list. -/
def assocSet (l : List (String × String)) (k v : String) : List (String × String) :=
  l.map fun p => if p.1 = k then (k, v) else p

/-- Strip a leading `refs/` from a ref name, so that a ref created as
`refs/heads/b` is subsequently visible to `getRef` under `heads/b`. -/
def dropRefsQualifier (chars : List Char) : List Char :=
  match chars with
  | 'r' :: 'e' :: 'f' :: 's' :: '/' :: rest => rest
  | l => l

/-- Key under which the mock stores a ref named in an API call. -/
def refKeyOf (ref : String) : String := ⟨dropRefsQualifier ref.data⟩

/-- A raw http-404 error as octokit would reject with. -/
def notFoundErr : JsError := .raw (some 404) "Not Found" none

/-- Deterministic semantics of the fault-free mock remote. -/
def RemoteState.api (s : RemoteState) : ApiCall → Except JsError ApiResp × RemoteState
  | .getRef _ _ ref =>
    match assocLookup s.refs ref with
    | some sha => (.ok (.ref sha), s)
    | none => (.error notFoundErr, s)
  | .createRef _ _ ref sha =>
    let key := refKeyOf ref
    match assocLookup s.refs key with
    | some _ => (.error (.raw (some 422) "Reference already exists" none), s)
    | none => (.ok (.ref sha), { s with refs := (key, sha) :: s.refs })
  | .getCommit _ _ commitSha =>
    match assocLookup s.commits commitSha with
    | some t => (.ok (.commit t), s)
    | none => (.error notFoundErr, s)
  | .getContent _ _ path _ =>
    match assocLookup s.contents path with
    | some info => (.ok (.content info), s)
    | none => (.error notFoundErr, s)
  | .createTree _ _ _ _ =>
    (.ok (.tree (freshSha s.counter)), { s with counter := s.counter + 1 })
  | .createCommit _ _ _ treeSha _ =>
    (.ok (.newCommit (freshSha s.counter)),
     { s with counter := s.counter + 1, commits := (freshSha s.counter, treeSha) :: s.commits })
  | .updateRef _ _ ref sha =>
    match assocLookup s.refs ref with
    | some _ => (.ok (.ref sha), { s with refs := assocSet s.refs ref sha })
    | none => (.error (.raw (some 422) "Reference does not exist" none), s)
  | .getRepo _ _ => (.ok (.repoInfo s.defaultBranch), s)
  | .createOrUpdateContents _ _ _ _ _ _ _ =>
    (.ok (.contentWritten (freshSha s.counter) (freshSha (s.counter + 1))),
     { s with counter := s.counter + 2 })
  | .createFork _ _ _ => (.ok .forkData, s)
  | .listPullFiles _ _ _ => (.ok .pullFiles, s)

/-- First matching fault for a call. -/
def lookupFault (l : List (ApiCall × JsError)) (c : ApiCall) : Option JsError :=
  match l with
  | [] => none
  | (c', e) :: rest => if c' = c then some e else lookupFault rest c

/-- One adapter invocation: the call is recorded in the trace; an injected
fault rejects the call, otherwise the mock remote answers. -/
def callApi (s : RemoteState) (c : ApiCall) :
    Except JsError ApiResp × RemoteState × List ApiCall :=
  match lookupFault s.faults c with
  | some e => (.error e, s, [c])
  | none =>
    let (r, s') := s.api c
    (r, s', [c])

/-- Projection `refData.object.sha`; the mock always answers a ref request
with the `ref` variant, so the fallback is dead. -/
def ApiResp.refShaOf : ApiResp → String
  | .ref sha => sha
  | _ => ""

/-- Projection `commitData.tree.sha`. -/
def ApiResp.treeShaOf : ApiResp → String
  | .commit t => t
  | _ => ""

/-- Projection `newTree.sha`. -/
def ApiResp.newTreeShaOf : ApiResp → String
  | .tree sha => sha
  | _ => ""

/-- Projection `newCommit.sha`. -/
def ApiResp.newCommitShaOf : ApiResp → String
  | .newCommit sha => sha
  | _ => ""

/-- Projection `data.default_branch`. -/
def ApiResp.defaultBranchOf : ApiResp → String
  | .repoInfo d => d
  | _ => ""

/-! The GitHubApi adapter methods (src/utils/github-api.ts) and the file
tools (src/tools/files.ts). Each is a function from a remote state to a
result, the successor state and the trace of adapter calls it issued;
sequential composition concatenates traces. -/

/-- GitHubApi.branchExists (github-api.ts lines 41-55): a getRef succeeding
means true; a rejection whose raw `status` is 404 means false (the error is
swallowed); any other rejection is classified by handleApiError and thrown. -/
def branchExists (s : RemoteState) (owner repo branch : String) :
    Except JsError Bool × RemoteState × List ApiCall :=
  match callApi s (.getRef owner repo ("heads/" ++ branch)) with
  | (.ok _, s₁, t₁) => (.ok true, s₁, t₁)
  | (.error e, s₁, t₁) =>
    if e.statusField = some 404 then (.ok false, s₁, t₁)
    else (.error (.mcp (handleApiError e)), s₁, t₁)

/-- GitHubApi.getDefaultBranch (github-api.ts lines 92-102). -/
def getDefaultBranchApi (s : RemoteState) (owner repo : String) :
    Except JsError String × RemoteState × List ApiCall :=
  match callApi s (.getRepo owner repo) with
  | (.ok d, s₁, t₁) => (.ok d.defaultBranchOf, s₁, t₁)
  | (.error e, s₁, t₁) => (.error (.mcp (handleApiError e)), s₁, t₁)

/-- GitHubApi.createBranch (github-api.ts lines 60-87): resolve the source
branch (`fromBranch || getDefaultBranch`, where an empty string is falsy in
JS), read its head sha, create `refs/heads/<branch>` at that sha; every error
escaping the body is classified by handleApiError (already-classified errors
pass through it unchanged). -/
def createBranchApi (s : RemoteState) (owner repo branch : String)
    (fromBranch : Option String) :
    Except JsError String × RemoteState × List ApiCall :=
  let (src, s₁, t₁) :=
    match fromBranch with
    | some b => if b = "" then getDefaultBranchApi s owner repo else (.ok b, s, [])
    | none => getDefaultBranchApi s owner repo
  match src with
  | .error e => (.error (.mcp (handleApiError e)), s₁, t₁)
  | .ok sourceBranch =>
    match callApi s₁ (.getRef owner repo ("heads/" ++ sourceBranch)) with
    | (.error e, s₂, t₂) => (.error (.mcp (handleApiError e)), s₂, t₁ ++ t₂)
    | (.ok refData, s₂, t₂) =>
      match callApi s₂ (.createRef owner repo ("refs/heads/" ++ branch) refData.refShaOf) with
      | (.error e, s₃, t₃) => (.error (.mcp (handleApiError e)), s₃, t₁ ++ t₂ ++ t₃)
      | (.ok d, s₃, t₃) => (.ok d.refShaOf, s₃, t₁ ++ t₂ ++ t₃)

/-- The branch-ensure prelude shared verbatim by createOrUpdateFile
(files.ts lines 18-22) and pushFiles (files.ts lines 62-66): probe with
branchExists and create the branch when absent; the returned boolean is the
probe's answer (whether the branch already existed). -/
def ensureBranchStep (s : RemoteState) (owner repo branch : String) :
    Except JsError Bool × RemoteState × List ApiCall :=
  match branchExists s owner repo branch with
  | (.ok true, s₁, t₁) => (.ok true, s₁, t₁)
  | (.ok false, s₁, t₁) =>
    match createBranchApi s₁ owner repo branch none with
    | (.ok _, s₂, t₂) => (.ok false, s₂, t₁ ++ t₂)
    | (.error e, s₂, t₂) => (.error e, s₂, t₁ ++ t₂)
  | (.error e, s₁, t₁) => (.error e, s₁, t₁)

/-- The per-file loop of pushFiles (files.ts lines 85-114): for every input
file a `repos.getContent` existence probe is issued whose blob sha is bound
and never used; a probe rejection with raw status other than 404 is rethrown,
a 404 is swallowed; the produced tree entry is always the literal-content
regular-file blob. The source runs the probes under `Promise.all`; they are
sequenced here in input order (the spec notes no cross-file ordering
matters). -/
def buildEntries (s : RemoteState) (owner repo branch : String) :
    List PushFileEntry → Except JsError (List TreeEntry) × RemoteState × List ApiCall
  | [] => (.ok [], s, [])
  | f :: rest =>
    let (r, s₁, t₁) := callApi s (.getContent owner repo f.path (some branch))
    let proceed : Except JsError Unit :=
      match r with
      | .ok _ => .ok ()
      | .error e => if e.statusField ≠ some 404 then .error e else .ok ()
    match proceed with
    | .error e => (.error e, s₁, t₁)
    | .ok _ =>
      match buildEntries s₁ owner repo branch rest with
      | (.ok entries, s₂, t₂) =>
        (.ok ({ path := f.path, mode := "100644", type := "blob", content := f.content } :: entries),
         s₂, t₁ ++ t₂)
      | (.error e, s₂, t₂) => (.error e, s₂, t₁ ++ t₂)

/-- The `commit` component of a pushFiles result (files.ts lines 144-148). -/
structure CommitResult where
  sha : String
  message : String
  url : String
deriving DecidableEq

/-- The success envelope of pushFiles (files.ts lines 141-150). -/
structure PushResult where
  success : Bool
  branch : String
  commit : CommitResult
  files : List String
deriving DecidableEq

/-- The commit-engine sequence of pushFiles after the branch-ensure step
(files.ts lines 68-150): read the branch's head ref, read the head commit's
tree, build the tree entries (with the per-file probes), create tree, commit,
and update the ref, then build the success envelope whose commit URL is
hard-coded to the `https://github.com` host. -/
def pushFilesEngine (s : RemoteState) (a : PushFilesArgs) :
    Except JsError PushResult × RemoteState × List ApiCall :=
  match callApi s (.getRef a.owner a.repo ("heads/" ++ a.branch)) with
  | (.error e, s₂, t₂) => (.error e, s₂, t₂)
  | (.ok refData, s₂, t₂) =>
    let latestCommitSha := refData.refShaOf
    match callApi s₂ (.getCommit a.owner a.repo latestCommitSha) with
    | (.error e, s₃, t₃) => (.error e, s₃, t₂ ++ t₃)
    | (.ok commitData, s₃, t₃) =>
      let baseTreeSha := commitData.treeShaOf
      match buildEntries s₃ a.owner a.repo a.branch a.files with
      | (.error e, s₄, t₄) => (.error e, s₄, t₂ ++ t₃ ++ t₄)
      | (.ok tree, s₄, t₄) =>
        match callApi s₄ (.createTree a.owner a.repo baseTreeSha tree) with
        | (.error e, s₅, t₅) => (.error e, s₅, t₂ ++ t₃ ++ t₄ ++ t₅)
        | (.ok newTree, s₅, t₅) =>
          match callApi s₅
              (.createCommit a.owner a.repo a.message newTree.newTreeShaOf [latestCommitSha]) with
          | (.error e, s₆, t₆) => (.error e, s₆, t₂ ++ t₃ ++ t₄ ++ t₅ ++ t₆)
          | (.ok newCommit, s₆, t₆) =>
            match callApi s₆
                (.updateRef a.owner a.repo ("heads/" ++ a.branch) newCommit.newCommitShaOf) with
            | (.error e, s₇, t₇) => (.error e, s₇, t₂ ++ t₃ ++ t₄ ++ t₅ ++ t₆ ++ t₇)
            | (.ok _, s₇, t₇) =>
              (.ok { success := true
                     branch := a.branch
                     commit :=
                       { sha := newCommit.newCommitShaOf
                         message := a.message
                         url := "https://github.com/" ++ a.owner ++ "/" ++ a.repo ++
                           "/commit/" ++ newCommit.newCommitShaOf }
                     files := a.files.map fun f => f.path },
               s₇, t₂ ++ t₃ ++ t₄ ++ t₅ ++ t₆ ++ t₇)

/-- The body of pushFiles inside tryCatchAsync (files.ts lines 61-151): the
branch-ensure step runs first and the commit-engine sequence follows only
when it succeeds. -/
def pushFilesInner (s : RemoteState) (a : PushFilesArgs) :
    Except JsError PushResult × RemoteState × List ApiCall :=
  match ensureBranchStep s a.owner a.repo a.branch with
  | (.error e, s₁, t₁) => (.error e, s₁, t₁)
  | (.ok _, s₁, t₁) =>
    let (r, s', t') := pushFilesEngine s₁ a
    (r, s', t₁ ++ t')

/-- pushFiles after schema validation: the body runs under tryCatchAsync with
the message `Failed to push files`. -/
def pushFilesParsed (s : RemoteState) (a : PushFilesArgs) :
    Except McpError PushResult × RemoteState × List ApiCall :=
  let (r, s', t) := pushFilesInner s a
  (tryCatchAsync r "Failed to push files", s', t)

/-- Errors a tool handler can end with: a zod validation failure thrown by
`Schema.parse` before the body runs, or an McpError from the body. -/
inductive ToolError where
  | zodErr (message : String)
  | mcpErr (e : McpError)
deriving DecidableEq

/-- Uniform result shape of the modelled tool handlers, as dispatched. -/
inductive ToolOutcome where
  | pushed (r : PushResult)
  | fileWritten (contentSha commitSha : String)
  | fileContent (decoded : Option String)
  | dirListing
  | forked
  | pullFilesListed
  | passthrough (name : String)
deriving DecidableEq

/-- Shape of every tool handler at the dispatch boundary. -/
def ToolHandler : Type :=
  RemoteState → JValue → Except ToolError ToolOutcome × RemoteState × List ApiCall

/-- The push-files tool (files.ts pushFiles, lines 57-152): validation first
— a failing parse throws before any adapter call — then the body. -/
def pushFilesRun : ToolHandler := fun s v =>
  match PushFilesSchema.parse v with
  | .error m => (.error (.zodErr m), s, [])
  | .ok a =>
    match pushFilesParsed s a with
    | (.ok r, s', t) => (.ok (.pushed r), s', t)
    | (.error e, s', t) => (.error (.mcpErr e), s', t)

/-- The create-or-update-file tool (files.ts createOrUpdateFile, lines
13-52): validate, ensure the branch, then createOrUpdateFileContents with the
content base64-encoded; the result projection is abbreviated to the two
hashes (the dropped fields play no role in any claim). -/
def createOrUpdateFileRun : ToolHandler := fun s v =>
  match CreateOrUpdateFileSchema.parse v with
  | .error m => (.error (.zodErr m), s, [])
  | .ok a =>
    let (r, s', t) : Except JsError (String × String) × RemoteState × List ApiCall :=
      match ensureBranchStep s a.owner a.repo a.branch with
      | (.error e, s₁, t₁) => (.error e, s₁, t₁)
      | (.ok _, s₁, t₁) =>
        match callApi s₁
            (.createOrUpdateContents a.owner a.repo a.path a.message
              (utf8ToBase64 a.content) a.branch a.sha) with
        | (.error e, s₂, t₂) => (.error e, s₂, t₁ ++ t₂)
        | (.ok (.contentWritten cSha mSha), s₂, t₂) => (.ok (cSha, mSha), s₂, t₁ ++ t₂)
        | (.ok _, s₂, t₂) => (.ok ("", ""), s₂, t₁ ++ t₂)
    match tryCatchAsync r "Failed to create or update file" with
    | .ok (cSha, mSha) => (.ok (.fileWritten cSha mSha), s', t)
    | .error e => (.error (.mcpErr e), s', t)

/-- The get-file-contents tool (files.ts getFileContents, lines 157-206):
validate, getContent, and for a file decode the base64 payload with
base64ToUtf8; the directory and file projections are abbreviated to the
decoded content (the dropped fields play no role in any claim). -/
def getFileContentsRun : ToolHandler := fun s v =>
  match GetFileContentsSchema.parse v with
  | .error m => (.error (.zodErr m), s, [])
  | .ok a =>
    let (r, s', t) : Except JsError ContentInfo × RemoteState × List ApiCall :=
      match callApi s (.getContent a.owner a.repo a.path a.branch) with
      | (.error e, s₁, t₁) => (.error e, s₁, t₁)
      | (.ok (.content info), s₁, t₁) => (.ok info, s₁, t₁)
      | (.ok _, s₁, t₁) => (.ok { isDir := false, sha := "", content := none }, s₁, t₁)
    match tryCatchAsync r "Failed to get file contents" with
    | .error e => (.error (.mcpErr e), s', t)
    | .ok info =>
      if info.isDir then (.ok .dirListing, s', t)
      else (.ok (.fileContent (info.content.map base64ToUtf8)), s', t)

/-- The fork-repository tool (files.ts forkRepository, lines 211-255): the
argument bag is only cast (`args as {...}`), never validated, and the
createFork adapter call is issued with whatever string fields the bag has;
the result projection is abbreviated to an opaque outcome. -/
def forkRepositoryRun : ToolHandler := fun s v =>
  let owner := (assocLookup v.fieldsOf "owner").bind JValue.asString
  let repo := (assocLookup v.fieldsOf "repo").bind JValue.asString
  let organization := (assocLookup v.fieldsOf "organization").bind JValue.asString
  let (r, s', t) : Except JsError Unit × RemoteState × List ApiCall :=
    match callApi s (.createFork owner repo organization) with
    | (.error e, s₁, t₁) => (.error e, s₁, t₁)
    | (.ok _, s₁, t₁) => (.ok (), s₁, t₁)
  match tryCatchAsync r "Failed to fork repository" with
  | .ok _ => (.ok .forked, s', t)
  | .error e => (.error (.mcpErr e), s', t)

/-- Extract `pull_number` as the cast in getPullRequestFiles would see it. -/
def JValue.asInt : JValue → Option Int
  | .num n => some n
  | _ => none

/-- The get-pull-request-files tool dispatched from files.ts (lines 260-284):
like forkRepository it casts the bag without validation and always issues the
listFiles adapter call. -/
def getPullRequestFilesRun : ToolHandler := fun s v =>
  let owner := (assocLookup v.fieldsOf "owner").bind JValue.asString
  let repo := (assocLookup v.fieldsOf "repo").bind JValue.asString
  let pullNumber := (assocLookup v.fieldsOf "pull_number").bind JValue.asInt
  let (r, s', t) : Except JsError Unit × RemoteState × List ApiCall :=
    match callApi s (.listPullFiles owner repo pullNumber) with
    | (.error e, s₁, t₁) => (.error e, s₁, t₁)
    | (.ok _, s₁, t₁) => (.ok (), s₁, t₁)
  match tryCatchAsync r "Failed to get pull request files" with
  | .ok _ => (.ok .pullFilesListed, s', t)
  | .error e => (.error (.mcpErr e), s', t)

/-- The catalog operations outside the claims' scope (single-call
projections the spec's §1 places outside the core): modelled as an opaque
outcome; no theorem below depends on their bodies, only on their names being
in the catalog. -/
def passthroughTool (name : String) : ToolHandler := fun s _ =>
  (.ok (.passthrough name), s, [])

/-- The CallTool switch of src/index.ts (part_002 lines 1161-1276) as a
name-to-handler table, in source case order; a `switch` over distinct string
literals and a first-match table lookup dispatch identically. -/
def toolTable : List (String × ToolHandler) :=
  [("search-repositories", passthroughTool "search-repositories"),
   ("create-repository", passthroughTool "create-repository"),
   ("update-repository", passthroughTool "update-repository"),
   ("delete-repository", passthroughTool "delete-repository"),
   ("create-branch", passthroughTool "create-branch"),
   ("list-commits", passthroughTool "list-commits"),
   ("list-workflows", passthroughTool "list-workflows"),
   ("list-workflow-runs", passthroughTool "list-workflow-runs"),
   ("trigger-workflow", passthroughTool "trigger-workflow"),
   ("create-or-update-file", createOrUpdateFileRun),
   ("push-files", pushFilesRun),
   ("get-file-contents", getFileContentsRun),
   ("fork-repository", forkRepositoryRun),
   ("get-pull-request-files", getPullRequestFilesRun),
   ("list-issues", passthroughTool "list-issues"),
   ("get-issue", passthroughTool "get-issue"),
   ("create-issue", passthroughTool "create-issue"),
   ("update-issue", passthroughTool "update-issue"),
   ("add-issue-comment", passthroughTool "add-issue-comment"),
   ("list-pull-requests", passthroughTool "list-pull-requests"),
   ("get-pull-request", passthroughTool "get-pull-request"),
   ("create-pull-request", passthroughTool "create-pull-request"),
   ("create-pull-request-review", passthroughTool "create-pull-request-review"),
   ("merge-pull-request", passthroughTool "merge-pull-request"),
   ("get-pull-request-status", passthroughTool "get-pull-request-status"),
   ("update-pull-request-branch", passthroughTool "update-pull-request-branch"),
   ("get-pull-request-comments", passthroughTool "get-pull-request-comments"),
   ("get-pull-request-reviews", passthroughTool "get-pull-request-reviews"),
   ("search-code", passthroughTool "search-code"),
   ("search-issues", passthroughTool "search-issues"),
   ("search-users", passthroughTool "search-users"),
   ("get-license-info", passthroughTool "get-license-info"),
   ("get-enterprise-stats", passthroughTool "get-enterprise-stats")]

/-- The operation names of the catalog. -/
def toolNames : List String := toolTable.map Prod.fst

/-- The CallTool request handler (part_002 lines 1147-1298) on a
structured argument bag: an unknown name throws MethodNotFound before any
handler or validator runs; a known handler's McpError is rethrown unchanged
and any other thrown error (a zod failure) is wrapped into an InternalError
naming the tool. -/
def dispatchTool (s : RemoteState) (name : String) (args : JValue) :
    Except McpError ToolOutcome × RemoteState × List ApiCall :=
  match List.lookup name toolTable with
  | none =>
    (.error { code := ErrorCode.MethodNotFound, message := "Unknown tool: " ++ name }, s, [])
  | some h =>
    match h s args with
    | (.ok v, s', t) => (.ok v, s', t)
    | (.error (.mcpErr e), s', t) => (.error e, s', t)
    | (.error (.zodErr m), s', t) =>
      (.error { code := ErrorCode.InternalError
                message := "Error executing tool " ++ name ++ ": " ++ m }, s', t)

/-- Recognizer for the per-file content-read existence probe. -/
def ApiCall.isContentProbe : ApiCall → Bool
  | .getContent _ _ _ _ => true
  | _ => false

/-- Recognizer for a ref-lookup. -/
def ApiCall.isRefLookup : ApiCall → Bool
  | .getRef _ _ _ => true
  | _ => false

/-- Calls the branch-ensure step can issue (ref probe and read, repository
read for the default branch, ref creation) — none of the commit-engine
verbs commit-read, content probe, tree-create, commit-create, ref-update. -/
def ApiCall.isEnsureVerb : ApiCall → Bool
  | .getRef _ _ _ => true
  | .getRepo _ _ => true
  | .createRef _ _ _ _ => true
  | _ => false

/-- A fault-free demo repository whose branch `main` has head commit `c0`
with tree `t0`. -/
def demoState : RemoteState :=
  { baseUrl := none
    defaultBranch := "main"
    refs := [("heads/main", "c0")]
    commits := [("c0", "t0")]
    contents := []
    counter := 0
    faults := [] }

/-- The spec's running example request: write a.txt and b.txt to `main` with
message `M`. -/
def demoArgs : PushFilesArgs :=
  { owner := "acme"
    repo := "widgets"
    branch := "main"
    files := [{ path := "a.txt", content := "x" }, { path := "b.txt", content := "y" }]
    message := "M" }

/-! Theorems. -/

/-- Claim C5: the adapter's error classifier maps upstream status 401 to
Unauthorized, 403 to Forbidden, 404 to Not Found, 400 and 422 to Invalid
Parameters, every other or absent status to Internal, and returns an
already-classified error unchanged. -/
theorem claim_C5_errorClassification :
    (∀ msg resp, (handleApiError (.raw (some 401) msg resp)).code = ErrorCode.Unauthorized) ∧
    (∀ msg resp, (handleApiError (.raw (some 403) msg resp)).code = ErrorCode.Forbidden) ∧
    (∀ msg resp, (handleApiError (.raw (some 404) msg resp)).code = ErrorCode.NotFound) ∧
    (∀ msg resp, (handleApiError (.raw (some 400) msg resp)).code = ErrorCode.InvalidParams) ∧
    (∀ msg resp, (handleApiError (.raw (some 422) msg resp)).code = ErrorCode.InvalidParams) ∧
    (∀ st msg resp, st ∉ ([400, 401, 403, 404, 422] : List Nat) →
      (handleApiError (.raw (some st) msg resp)).code = ErrorCode.InternalError) ∧
    (∀ msg resp, (handleApiError (.raw none msg resp)).code = ErrorCode.InternalError) ∧
    (∀ e, handleApiError (.mcp e) = e) := by
  refine ⟨fun _ _ => rfl, fun _ _ => rfl, fun _ _ => rfl, fun _ _ => rfl, fun _ _ => rfl,
    ?_, fun _ _ => rfl, fun _ => rfl⟩
  intro st msg resp h
  simp only [List.mem_cons, List.not_mem_nil, or_false, not_or] at h
  obtain ⟨h400, h401, h403, h404, h422⟩ := h
  simp [handleApiError, h400, h401, h403, h404, h422]

/-- Witness for C5 at concrete inputs: status 418 classifies as Internal. -/
theorem claim_C5_errorClassification_witness :
    (418 : Nat) ∉ ([400, 401, 403, 404, 422] : List Nat) ∧
    (handleApiError (.raw (some 418) "teapot" none)).code = ErrorCode.InternalError :=
  ⟨by decide,
   claim_C5_errorClassification.2.2.2.2.2.1 418 "teapot" none (by decide)⟩

/-- Claim C4: the branch-existence probe returns true when the ref-lookup of
`heads/<branch>` succeeds, swallows a status-404 rejection as false (whether
the mock reports the ref missing or a 404 fault is injected), and propagates
(classified) every rejection whose status is not 404. -/
theorem claim_C4_branchExistsProbe :
    ∀ (s : RemoteState) (owner repo branch : String),
      (∀ e, lookupFault s.faults (.getRef owner repo ("heads/" ++ branch)) = some e →
        ((e.statusField = some 404 →
           branchExists s owner repo branch =
             (.ok false, s, [.getRef owner repo ("heads/" ++ branch)])) ∧
         (e.statusField ≠ some 404 →
           branchExists s owner repo branch =
             (.error (.mcp (handleApiError e)), s,
              [.getRef owner repo ("heads/" ++ branch)])))) ∧
      (lookupFault s.faults (.getRef owner repo ("heads/" ++ branch)) = none →
        ((∀ sha, assocLookup s.refs ("heads/" ++ branch) = some sha →
           branchExists s owner repo branch =
             (.ok true, s, [.getRef owner repo ("heads/" ++ branch)])) ∧
         (assocLookup s.refs ("heads/" ++ branch) = none →
           branchExists s owner repo branch =
             (.ok false, s, [.getRef owner repo ("heads/" ++ branch)])))) := by
  intro s owner repo branch
  constructor
  · intro e he
    constructor
    · intro h404
      simp [branchExists, callApi, he, h404]
    · intro hother
      simp [branchExists, callApi, he, hother]
  · intro hnone
    constructor
    · intro sha hsha
      simp [branchExists, callApi, hnone, RemoteState.api, hsha]
    · intro habs
      simp [branchExists, callApi, hnone, RemoteState.api, habs, notFoundErr,
        JsError.statusField]

/-- Witness for C4 at concrete inputs: on the demo state the probe of the
existing `main` answers true, and with an injected 500 fault the classified
error is propagated. -/
theorem claim_C4_branchExistsProbe_witness :
    (lookupFault demoState.faults (.getRef "acme" "widgets" "heads/main") = none ∧
     assocLookup demoState.refs "heads/main" = some "c0" ∧
     branchExists demoState "acme" "widgets" "main" =
       (.ok true, demoState, [.getRef "acme" "widgets" "heads/main"])) ∧
    (let sF : RemoteState :=
       { demoState with
         faults := [(.getRef "acme" "widgets" "heads/main", .raw (some 500) "boom" none)] }
     branchExists sF "acme" "widgets" "main" =
       (.error (.mcp (handleApiError (.raw (some 500) "boom" none))), sF,
        [.getRef "acme" "widgets" "heads/main"])) :=
  ⟨⟨rfl, rfl,
    ((claim_C4_branchExistsProbe demoState "acme" "widgets" "main").2 rfl).1 "c0" rfl⟩,
   (((claim_C4_branchExistsProbe
       { demoState with
         faults := [(.getRef "acme" "widgets" "heads/main", .raw (some 500) "boom" none)] }
       "acme" "widgets" "main").1 (.raw (some 500) "boom" none) rfl).2 (by decide))⟩

/-- Appending a binding for a different key does not change a first-match
lookup. -/
theorem assocLookup_append_ne {α : Type} (l : List (String × α)) (k k' : String)
    (v : α) (h : k' ≠ k) : assocLookup (l ++ [(k', v)]) k = assocLookup l k := by
  induction l with
  | nil => simp [assocLookup, h]
  | cons p rest ih =>
    obtain ⟨pk, pv⟩ := p
    simp only [List.cons_append, assocLookup]
    split
    · rfl
    · exact ih

/-- Claim C2 counterexample: a push-files argument bag carrying the
undeclared field `perPage` is accepted by PushFilesSchema (the extra field is
silently dropped), contradicting the claim that validation rejects any bag
with an undeclared field name. -/
theorem claim_C2_counterexample :
    PushFilesSchema.parse (.obj
      [("owner", .str "acme"), ("repo", .str "widgets"), ("branch", .str "main"),
       ("files", .arr [.obj [("path", .str "a.txt"), ("content", .str "x")]]),
       ("message", .str "M"), ("perPage", .num 5)]) =
    .ok { owner := "acme", repo := "widgets", branch := "main",
          files := [{ path := "a.txt", content := "x" }], message := "M" } := rfl

/-- Claim C2 (amended): the zod object schemas are in default strip mode, not
closed: an argument bag field whose name is not declared in the schema is
ignored — adding any undeclared field to a bag never changes the validation
result (in particular it is never rejected for that field) — shown for the
cited PushFilesSchema and OwnerRepoSchema. -/
theorem claim_C2_amended_unknownFieldsStripped :
    ∀ (fields : List (String × JValue)) (k : String) (v : JValue),
      (k ∉ (["owner", "repo", "branch", "files", "message"] : List String) →
        PushFilesSchema.parse (.obj (fields ++ [(k, v)])) =
          PushFilesSchema.parse (.obj fields)) ∧
      (k ∉ (["owner", "repo"] : List String) →
        OwnerRepoSchema.parse (.obj (fields ++ [(k, v)])) =
          OwnerRepoSchema.parse (.obj fields)) := by
  intro fields k v
  constructor
  · intro h
    simp only [List.mem_cons, List.not_mem_nil, or_false, not_or] at h
    obtain ⟨h1, h2, h3, h4, h5⟩ := h
    simp only [PushFilesSchema.parse,
      assocLookup_append_ne fields "owner" k v h1,
      assocLookup_append_ne fields "repo" k v h2,
      assocLookup_append_ne fields "branch" k v h3,
      assocLookup_append_ne fields "files" k v h4,
      assocLookup_append_ne fields "message" k v h5]
  · intro h
    simp only [List.mem_cons, List.not_mem_nil, or_false, not_or] at h
    obtain ⟨h1, h2⟩ := h
    simp only [OwnerRepoSchema.parse,
      assocLookup_append_ne fields "owner" k v h1,
      assocLookup_append_ne fields "repo" k v h2]

/-- Witness for the amended C2 at a concrete input: appending `perPage` to a
valid push-files bag leaves the parse result unchanged. -/
theorem claim_C2_amended_unknownFieldsStripped_witness :
    "perPage" ∉ (["owner", "repo", "branch", "files", "message"] : List String) ∧
    PushFilesSchema.parse (.obj
      ([("owner", .str "acme"), ("repo", .str "widgets"), ("branch", .str "main"),
        ("files", .arr [.obj [("path", .str "a.txt"), ("content", .str "x")]]),
        ("message", .str "M")] ++ [("perPage", .num 5)])) =
    PushFilesSchema.parse (.obj
      [("owner", .str "acme"), ("repo", .str "widgets"), ("branch", .str "main"),
       ("files", .arr [.obj [("path", .str "a.txt"), ("content", .str "x")]]),
       ("message", .str "M")]) :=
  ⟨by decide,
   (claim_C2_amended_unknownFieldsStripped
     [("owner", .str "acme"), ("repo", .str "widgets"), ("branch", .str "main"),
      ("files", .arr [.obj [("path", .str "a.txt"), ("content", .str "x")]]),
      ("message", .str "M")] "perPage" (.num 5)).1 (by decide)⟩

/-- A name absent from the first components of a handler table is not found
by List.lookup. -/
theorem lookupHandler_none (l : List (String × ToolHandler)) (n : String)
    (h : n ∉ l.map Prod.fst) : List.lookup n l = none := by
  induction l with
  | nil => rfl
  | cons p rest ih =>
    obtain ⟨pk, pv⟩ := p
    simp only [List.map_cons, List.mem_cons, not_or] at h
    obtain ⟨h1, h2⟩ := h
    simp only [List.lookup]
    rw [beq_false_of_ne h1]
    exact ih h2

/-- Claim C6: dispatching an operation name outside the catalog returns a
Method Not Found error with the unchanged state and an empty call trace — no
handler, no validator, no remote call. -/
theorem claim_C6_unknownToolName :
    ∀ (s : RemoteState) (name : String) (args : JValue),
      name ∉ toolNames →
      dispatchTool s name args =
        (.error { code := ErrorCode.MethodNotFound, message := "Unknown tool: " ++ name },
         s, []) := by
  intro s name args h
  unfold dispatchTool
  rw [lookupHandler_none toolTable name h]

/-- Witness for C6 at a concrete input: the name `no-such-tool`. -/
theorem claim_C6_unknownToolName_witness :
    "no-such-tool" ∉ toolNames ∧
    dispatchTool demoState "no-such-tool" (.obj []) =
      (.error { code := ErrorCode.MethodNotFound, message := "Unknown tool: no-such-tool" },
       demoState, []) :=
  ⟨by decide, claim_C6_unknownToolName demoState "no-such-tool" (.obj []) (by decide)⟩

/-- An empty fault table never faults. -/
theorem lookupFault_nil (c : ApiCall) : lookupFault [] c = none := rfl

/-- A single-entry fault table faults exactly its own call. -/
theorem lookupFault_single (u : ApiCall) (x : JsError) (c : ApiCall) :
    lookupFault [(u, x)] c = if u = c then some x else none := rfl

/-- The per-file loop issues exactly one content probe per input file in
input order and yields one literal-content regular-file blob entry per file,
whatever the probed repository contains, as long as no probe is faulted
(the mock's only rejection, a 404 for an absent path, is swallowed). -/
theorem buildEntries_spec (owner repo branch : String) :
    ∀ (files : List PushFileEntry) (s : RemoteState),
      (∀ f ∈ files,
        lookupFault s.faults (.getContent owner repo f.path (some branch)) = none) →
      buildEntries s owner repo branch files =
        (.ok (files.map fun f =>
            { path := f.path, mode := "100644", type := "blob", content := f.content }),
         s, files.map fun f => ApiCall.getContent owner repo f.path (some branch)) := by
  intro files
  induction files with
  | nil => intro s _; rfl
  | cons f rest ih =>
    intro s h
    have hf : lookupFault s.faults (.getContent owner repo f.path (some branch)) = none :=
      h f (List.mem_cons_self f rest)
    have hrest : ∀ g ∈ rest,
        lookupFault s.faults (.getContent owner repo g.path (some branch)) = none :=
      fun g hg => h g (List.mem_cons_of_mem f hg)
    cases hc : assocLookup s.contents f.path with
    | some info =>
      simp [buildEntries, callApi, hf, RemoteState.api, hc, ih s hrest]
    | none =>
      simp [buildEntries, callApi, hf, RemoteState.api, hc, notFoundErr,
        JsError.statusField, ih s hrest]

/-- The branch-ensure step on a branch whose ref exists reduces to the single
successful existence probe and reports the branch as existing. -/
theorem ensureBranchStep_existing (s : RemoteState) (owner repo branch sha : String)
    (hf : lookupFault s.faults (.getRef owner repo ("heads/" ++ branch)) = none)
    (href : assocLookup s.refs ("heads/" ++ branch) = some sha) :
    ensureBranchStep s owner repo branch =
      (.ok true, s, [.getRef owner repo ("heads/" ++ branch)]) := by
  simp [ensureBranchStep, branchExists, callApi, hf, RemoteState.api, href]

/-- Behaviour of the commit-engine sequence on a branch with head `c0` and
base tree `t0` when at most the final ref-update call is faulted: the exact
call trace is one head ref-lookup, one commit-read, one content probe per
file, one tree-create on base `t0`, one commit-create with single parent
`c0`, one ref-update — and the run succeeds with the full envelope when the
ref-update is not faulted, while an injected ref-update error is returned
as-is with no envelope. -/
theorem pushFilesEngine_spec (s : RemoteState) (a : PushFilesArgs) (c0 t0 : String)
    (hno : ∀ c e, lookupFault s.faults c = some e →
      c = .updateRef a.owner a.repo ("heads/" ++ a.branch) (freshSha (s.counter + 1)))
    (href : assocLookup s.refs ("heads/" ++ a.branch) = some c0)
    (hcom : assocLookup s.commits c0 = some t0) :
    (lookupFault s.faults
        (.updateRef a.owner a.repo ("heads/" ++ a.branch) (freshSha (s.counter + 1))) = none →
      pushFilesEngine s a =
        (.ok { success := true
               branch := a.branch
               commit :=
                 { sha := freshSha (s.counter + 1)
                   message := a.message
                   url := "https://github.com/" ++ a.owner ++ "/" ++ a.repo ++
                     "/commit/" ++ freshSha (s.counter + 1) }
               files := a.files.map fun f => f.path },
         { s with counter := s.counter + 2
                  commits := (freshSha (s.counter + 1), freshSha s.counter) :: s.commits
                  refs := assocSet s.refs ("heads/" ++ a.branch) (freshSha (s.counter + 1)) },
         [.getRef a.owner a.repo ("heads/" ++ a.branch), .getCommit a.owner a.repo c0] ++
           (a.files.map fun f => ApiCall.getContent a.owner a.repo f.path (some a.branch)) ++
           [.createTree a.owner a.repo t0 (a.files.map fun f =>
              { path := f.path, mode := "100644", type := "blob", content := f.content }),
            .createCommit a.owner a.repo a.message (freshSha s.counter) [c0],
            .updateRef a.owner a.repo ("heads/" ++ a.branch) (freshSha (s.counter + 1))])) ∧
    (∀ e, lookupFault s.faults
        (.updateRef a.owner a.repo ("heads/" ++ a.branch) (freshSha (s.counter + 1))) = some e →
      pushFilesEngine s a =
        (.error e,
         { s with counter := s.counter + 2
                  commits := (freshSha (s.counter + 1), freshSha s.counter) :: s.commits },
         [.getRef a.owner a.repo ("heads/" ++ a.branch), .getCommit a.owner a.repo c0] ++
           (a.files.map fun f => ApiCall.getContent a.owner a.repo f.path (some a.branch)) ++
           [.createTree a.owner a.repo t0 (a.files.map fun f =>
              { path := f.path, mode := "100644", type := "blob", content := f.content }),
            .createCommit a.owner a.repo a.message (freshSha s.counter) [c0],
            .updateRef a.owner a.repo ("heads/" ++ a.branch) (freshSha (s.counter + 1))])) := by
  have neCall : ∀ c : ApiCall,
      c ≠ .updateRef a.owner a.repo ("heads/" ++ a.branch) (freshSha (s.counter + 1)) →
      lookupFault s.faults c = none := by
    intro c hc
    cases hl : lookupFault s.faults c with
    | none => rfl
    | some e => exact absurd (hno c e hl) hc
  have hn1 : lookupFault s.faults (.getRef a.owner a.repo ("heads/" ++ a.branch)) = none :=
    neCall _ (by intro h; exact ApiCall.noConfusion h)
  have hn2 : lookupFault s.faults (.getCommit a.owner a.repo c0) = none :=
    neCall _ (by intro h; exact ApiCall.noConfusion h)
  have hn3 : ∀ f : PushFileEntry,
      lookupFault s.faults (.getContent a.owner a.repo f.path (some a.branch)) = none :=
    fun f => neCall _ (by intro h; exact ApiCall.noConfusion h)
  have hn4 : lookupFault s.faults (.createTree a.owner a.repo t0 (a.files.map fun f =>
      { path := f.path, mode := "100644", type := "blob", content := f.content })) = none :=
    neCall _ (by intro h; exact ApiCall.noConfusion h)
  have hn5 : lookupFault s.faults
      (.createCommit a.owner a.repo a.message (freshSha s.counter) [c0]) = none :=
    neCall _ (by intro h; exact ApiCall.noConfusion h)
  have h1 : callApi s (.getRef a.owner a.repo ("heads/" ++ a.branch)) =
      (.ok (.ref c0), s, [.getRef a.owner a.repo ("heads/" ++ a.branch)]) := by
    simp [callApi, hn1, RemoteState.api, href]
  have h2 : callApi s (.getCommit a.owner a.repo c0) =
      (.ok (.commit t0), s, [.getCommit a.owner a.repo c0]) := by
    simp [callApi, hn2, RemoteState.api, hcom]
  have h3 : buildEntries s a.owner a.repo a.branch a.files =
      (.ok (a.files.map fun f =>
          { path := f.path, mode := "100644", type := "blob", content := f.content }),
       s, a.files.map fun f => ApiCall.getContent a.owner a.repo f.path (some a.branch)) :=
    buildEntries_spec a.owner a.repo a.branch a.files s (fun f _ => hn3 f)
  have h4 : callApi s (.createTree a.owner a.repo t0 (a.files.map fun f =>
        { path := f.path, mode := "100644", type := "blob", content := f.content })) =
      (.ok (.tree (freshSha s.counter)), { s with counter := s.counter + 1 },
       [.createTree a.owner a.repo t0 (a.files.map fun f =>
          { path := f.path, mode := "100644", type := "blob", content := f.content })]) := by
    simp [callApi, hn4, RemoteState.api]
  have h5 : callApi { s with counter := s.counter + 1 }
        (.createCommit a.owner a.repo a.message (freshSha s.counter) [c0]) =
      (.ok (.newCommit (freshSha (s.counter + 1))),
       { s with counter := s.counter + 2
                commits := (freshSha (s.counter + 1), freshSha s.counter) :: s.commits },
       [.createCommit a.owner a.repo a.message (freshSha s.counter) [c0]]) := by
    simp [callApi, hn5, RemoteState.api]
  constructor
  · intro hupd
    have h6 : callApi
          { s with counter := s.counter + 2
                   commits := (freshSha (s.counter + 1), freshSha s.counter) :: s.commits }
          (.updateRef a.owner a.repo ("heads/" ++ a.branch) (freshSha (s.counter + 1))) =
        (.ok (.ref (freshSha (s.counter + 1))),
         { s with counter := s.counter + 2
                  commits := (freshSha (s.counter + 1), freshSha s.counter) :: s.commits
                  refs := assocSet s.refs ("heads/" ++ a.branch) (freshSha (s.counter + 1)) },
         [.updateRef a.owner a.repo ("heads/" ++ a.branch) (freshSha (s.counter + 1))]) := by
      simp [callApi, hupd, RemoteState.api, href]
    simp [pushFilesEngine, h1, h2, h3, h4, h5, h6, ApiResp.refShaOf, ApiResp.treeShaOf,
      ApiResp.newTreeShaOf, ApiResp.newCommitShaOf]
  · intro e hupd
    have h6 : callApi
          { s with counter := s.counter + 2
                   commits := (freshSha (s.counter + 1), freshSha s.counter) :: s.commits }
          (.updateRef a.owner a.repo ("heads/" ++ a.branch) (freshSha (s.counter + 1))) =
        (.error e,
         { s with counter := s.counter + 2
                  commits := (freshSha (s.counter + 1), freshSha s.counter) :: s.commits },
         [.updateRef a.owner a.repo ("heads/" ++ a.branch) (freshSha (s.counter + 1))]) := by
      simp [callApi, hupd]
    simp [pushFilesEngine, h1, h2, h3, h4, h5, h6, ApiResp.refShaOf, ApiResp.treeShaOf,
      ApiResp.newTreeShaOf, ApiResp.newCommitShaOf]

/-- Full behaviour of a fault-free push-files run (after validation) on a
repository whose target branch exists with head commit `c0` and tree `t0`. -/
theorem pushFilesParsed_ok_spec (s : RemoteState) (a : PushFilesArgs) (c0 t0 : String)
    (hfaults : s.faults = [])
    (href : assocLookup s.refs ("heads/" ++ a.branch) = some c0)
    (hcom : assocLookup s.commits c0 = some t0) :
    pushFilesParsed s a =
      (.ok { success := true
             branch := a.branch
             commit :=
               { sha := freshSha (s.counter + 1)
                 message := a.message
                 url := "https://github.com/" ++ a.owner ++ "/" ++ a.repo ++
                   "/commit/" ++ freshSha (s.counter + 1) }
             files := a.files.map fun f => f.path },
       { s with counter := s.counter + 2
                commits := (freshSha (s.counter + 1), freshSha s.counter) :: s.commits
                refs := assocSet s.refs ("heads/" ++ a.branch) (freshSha (s.counter + 1)) },
       [.getRef a.owner a.repo ("heads/" ++ a.branch),
        .getRef a.owner a.repo ("heads/" ++ a.branch),
        .getCommit a.owner a.repo c0] ++
         (a.files.map fun f => ApiCall.getContent a.owner a.repo f.path (some a.branch)) ++
         [.createTree a.owner a.repo t0 (a.files.map fun f =>
            { path := f.path, mode := "100644", type := "blob", content := f.content }),
          .createCommit a.owner a.repo a.message (freshSha s.counter) [c0],
          .updateRef a.owner a.repo ("heads/" ++ a.branch) (freshSha (s.counter + 1))]) := by
  have hno : ∀ c e, lookupFault s.faults c = some e →
      c = .updateRef a.owner a.repo ("heads/" ++ a.branch) (freshSha (s.counter + 1)) := by
    intro c e h
    rw [hfaults] at h
    exact absurd h (by simp [lookupFault])
  have hupd : lookupFault s.faults
      (.updateRef a.owner a.repo ("heads/" ++ a.branch) (freshSha (s.counter + 1))) = none := by
    rw [hfaults]; rfl
  have hens := ensureBranchStep_existing s a.owner a.repo a.branch c0
    (by rw [hfaults]; rfl) href
  have heng := (pushFilesEngine_spec s a c0 t0 hno href hcom).1 hupd
  simp [pushFilesParsed, pushFilesInner, hens, heng, tryCatchAsync]

/-- Claim C1 (amended): for a push-files run on a repository whose target
branch exists with head commit `c0` and tree `t0` and a non-empty file list,
the engine issues one branch-existence ref-lookup, one head ref-lookup, one
commit-read, one content-read existence probe per input file (whose result is
discarded), one tree-create with base tree `t0` and one entry per input file,
one commit-create with single parent `c0`, and one ref-update of
`heads/<branch>` to the new commit; the returned result's files list equals
the input file paths in input order. -/
theorem claim_C1_amended_commitEngineCalls (s : RemoteState) (a : PushFilesArgs)
    (c0 t0 : String)
    (hne : a.files ≠ [])
    (hfaults : s.faults = [])
    (href : assocLookup s.refs ("heads/" ++ a.branch) = some c0)
    (hcom : assocLookup s.commits c0 = some t0) :
    pushFilesParsed s a =
      (.ok { success := true
             branch := a.branch
             commit :=
               { sha := freshSha (s.counter + 1)
                 message := a.message
                 url := "https://github.com/" ++ a.owner ++ "/" ++ a.repo ++
                   "/commit/" ++ freshSha (s.counter + 1) }
             files := a.files.map fun f => f.path },
       { s with counter := s.counter + 2
                commits := (freshSha (s.counter + 1), freshSha s.counter) :: s.commits
                refs := assocSet s.refs ("heads/" ++ a.branch) (freshSha (s.counter + 1)) },
       [.getRef a.owner a.repo ("heads/" ++ a.branch),
        .getRef a.owner a.repo ("heads/" ++ a.branch),
        .getCommit a.owner a.repo c0] ++
         (a.files.map fun f => ApiCall.getContent a.owner a.repo f.path (some a.branch)) ++
         [.createTree a.owner a.repo t0 (a.files.map fun f =>
            { path := f.path, mode := "100644", type := "blob", content := f.content }),
          .createCommit a.owner a.repo a.message (freshSha s.counter) [c0],
          .updateRef a.owner a.repo ("heads/" ++ a.branch) (freshSha (s.counter + 1))]) :=
  pushFilesParsed_ok_spec s a c0 t0 hfaults href hcom

/-- Claim C1 counterexample: on the spec's own example (branch `main` at head
`c0` with tree `t0`, files a.txt and b.txt) the successful run issues two
per-file content-read existence probes — the claim says none occurs — and two
ref-lookups rather than exactly one. -/
theorem claim_C1_counterexample :
    (pushFilesParsed demoState demoArgs).2.2.countP ApiCall.isContentProbe = 2 ∧
    (pushFilesParsed demoState demoArgs).2.2.countP ApiCall.isRefLookup = 2 ∧
    (pushFilesParsed demoState demoArgs).1 =
      .ok { success := true, branch := "main",
            commit := { sha := "sha-1", message := "M",
                        url := "https://github.com/acme/widgets/commit/sha-1" },
            files := ["a.txt", "b.txt"] } :=
  ⟨by decide, by decide, rfl⟩

/-- Witness for the amended C1 on the demo repository. -/
theorem claim_C1_amended_commitEngineCalls_witness :
    demoArgs.files ≠ [] ∧ demoState.faults = [] ∧
    assocLookup demoState.refs ("heads/" ++ demoArgs.branch) = some "c0" ∧
    assocLookup demoState.commits "c0" = some "t0" ∧
    pushFilesParsed demoState demoArgs =
      (.ok { success := true
             branch := "main"
             commit :=
               { sha := "sha-1"
                 message := "M"
                 url := "https://github.com/acme/widgets/commit/sha-1" }
             files := ["a.txt", "b.txt"] },
       { demoState with counter := 2
                        commits := [("sha-1", "sha-0"), ("c0", "t0")]
                        refs := [("heads/main", "sha-1")] },
       [.getRef "acme" "widgets" "heads/main",
        .getRef "acme" "widgets" "heads/main",
        .getCommit "acme" "widgets" "c0",
        .getContent "acme" "widgets" "a.txt" (some "main"),
        .getContent "acme" "widgets" "b.txt" (some "main"),
        .createTree "acme" "widgets" "t0"
          [{ path := "a.txt", mode := "100644", type := "blob", content := "x" },
           { path := "b.txt", mode := "100644", type := "blob", content := "y" }],
        .createCommit "acme" "widgets" "M" "sha-0" ["c0"],
        .updateRef "acme" "widgets" "heads/main" "sha-1"]) :=
  ⟨by decide, rfl, rfl, rfl,
   claim_C1_amended_commitEngineCalls demoState demoArgs "c0" "t0" (by decide) rfl rfl rfl⟩

/-- Claim C8: when the final ref-update call of a push-files run fails with
an already-classified error, the operation returns that McpError verbatim
(tryCatchAsync rethrows an McpError unchanged) and no success envelope is
constructed — in particular the branch ref is never updated in the resulting
state. -/
theorem claim_C8_refUpdateFailureVerbatim (s : RemoteState) (a : PushFilesArgs)
    (c0 t0 : String) (err : McpError)
    (hfaults : s.faults =
      [(.updateRef a.owner a.repo ("heads/" ++ a.branch) (freshSha (s.counter + 1)),
        .mcp err)])
    (href : assocLookup s.refs ("heads/" ++ a.branch) = some c0)
    (hcom : assocLookup s.commits c0 = some t0) :
    pushFilesParsed s a =
      (.error err,
       { s with counter := s.counter + 2
                commits := (freshSha (s.counter + 1), freshSha s.counter) :: s.commits },
       [.getRef a.owner a.repo ("heads/" ++ a.branch),
        .getRef a.owner a.repo ("heads/" ++ a.branch),
        .getCommit a.owner a.repo c0] ++
         (a.files.map fun f => ApiCall.getContent a.owner a.repo f.path (some a.branch)) ++
         [.createTree a.owner a.repo t0 (a.files.map fun f =>
            { path := f.path, mode := "100644", type := "blob", content := f.content }),
          .createCommit a.owner a.repo a.message (freshSha s.counter) [c0],
          .updateRef a.owner a.repo ("heads/" ++ a.branch) (freshSha (s.counter + 1))]) := by
  have hno : ∀ c e, lookupFault s.faults c = some e →
      c = .updateRef a.owner a.repo ("heads/" ++ a.branch) (freshSha (s.counter + 1)) := by
    intro c e h
    rw [hfaults, lookupFault_single] at h
    by_cases hc :
        ApiCall.updateRef a.owner a.repo ("heads/" ++ a.branch) (freshSha (s.counter + 1)) = c
    · exact hc.symm
    · rw [if_neg hc] at h
      exact absurd h (by simp)
  have hupd : lookupFault s.faults
      (.updateRef a.owner a.repo ("heads/" ++ a.branch) (freshSha (s.counter + 1))) =
      some (.mcp err) := by
    rw [hfaults, lookupFault_single, if_pos rfl]
  have hens := ensureBranchStep_existing s a.owner a.repo a.branch c0
    (by rw [hfaults, lookupFault_single, if_neg (by simp)]) href
  have heng := (pushFilesEngine_spec s a c0 t0 hno href hcom).2 (.mcp err) hupd
  simp [pushFilesParsed, pushFilesInner, hens, heng, tryCatchAsync]

/-- Witness for C8: injecting a classified Forbidden error at the ref-update
call of the demo run returns exactly that error with no envelope. -/
theorem claim_C8_refUpdateFailureVerbatim_witness :
    (let sF : RemoteState :=
      { demoState with
        faults := [(.updateRef "acme" "widgets" "heads/main" "sha-1",
                    .mcp { code := ErrorCode.Forbidden, message := "denied" })] }
     pushFilesParsed sF demoArgs =
      (.error { code := ErrorCode.Forbidden, message := "denied" },
       { sF with counter := 2, commits := [("sha-1", "sha-0"), ("c0", "t0")] },
       [.getRef "acme" "widgets" "heads/main",
        .getRef "acme" "widgets" "heads/main",
        .getCommit "acme" "widgets" "c0",
        .getContent "acme" "widgets" "a.txt" (some "main"),
        .getContent "acme" "widgets" "b.txt" (some "main"),
        .createTree "acme" "widgets" "t0"
          [{ path := "a.txt", mode := "100644", type := "blob", content := "x" },
           { path := "b.txt", mode := "100644", type := "blob", content := "y" }],
        .createCommit "acme" "widgets" "M" "sha-0" ["c0"],
        .updateRef "acme" "widgets" "heads/main" "sha-1"])) :=
  claim_C8_refUpdateFailureVerbatim
    { demoState with
      faults := [(.updateRef "acme" "widgets" "heads/main" "sha-1",
                  .mcp { code := ErrorCode.Forbidden, message := "denied" })] }
    demoArgs "c0" "t0" { code := ErrorCode.Forbidden, message := "denied" } rfl rfl rfl

/-- Claim C10: a successful push-files result's commit URL is built on the
fixed host `https://github.com` from owner, repo and the new commit hash, and
the result does not depend on the adapter's configured base URL at all. -/
theorem claim_C10_fixedCommitHost (u₁ u₂ : Option String) (s : RemoteState)
    (a : PushFilesArgs) (c0 t0 : String)
    (hfaults : s.faults = [])
    (href : assocLookup s.refs ("heads/" ++ a.branch) = some c0)
    (hcom : assocLookup s.commits c0 = some t0) :
    (∃ r s' tr, pushFilesParsed { s with baseUrl := u₁ } a = (.ok r, s', tr) ∧
      r.commit.url =
        "https://github.com/" ++ a.owner ++ "/" ++ a.repo ++ "/commit/" ++ r.commit.sha) ∧
    (pushFilesParsed { s with baseUrl := u₁ } a).1 =
      (pushFilesParsed { s with baseUrl := u₂ } a).1 := by
  have h₁ := pushFilesParsed_ok_spec { s with baseUrl := u₁ } a c0 t0 hfaults href hcom
  have h₂ := pushFilesParsed_ok_spec { s with baseUrl := u₂ } a c0 t0 hfaults href hcom
  constructor
  · exact ⟨_, _, _, h₁, rfl⟩
  · rw [h₁, h₂]

/-- Witness for C10 on the demo repository with two different configured base
URLs. -/
theorem claim_C10_fixedCommitHost_witness :
    demoState.faults = [] ∧
    (∃ r s' tr,
      pushFilesParsed { demoState with baseUrl := some "https://ghe.example.com/api/v3" }
        demoArgs = (.ok r, s', tr) ∧
      r.commit.url = "https://github.com/" ++ "acme" ++ "/" ++ "widgets" ++ "/commit/" ++
        r.commit.sha) ∧
    (pushFilesParsed { demoState with baseUrl := some "https://ghe.example.com/api/v3" }
        demoArgs).1 =
      (pushFilesParsed { demoState with baseUrl := none } demoArgs).1 :=
  ⟨rfl,
   (claim_C10_fixedCommitHost (some "https://ghe.example.com/api/v3") none demoState
     demoArgs "c0" "t0" rfl rfl rfl).1,
   (claim_C10_fixedCommitHost (some "https://ghe.example.com/api/v3") none demoState
     demoArgs "c0" "t0" rfl rfl rfl).2⟩

/-- Every adapter invocation records exactly its own call. -/
theorem callApi_trace (s : RemoteState) (c : ApiCall) : (callApi s c).2.2 = [c] := by
  unfold callApi
  cases h : lookupFault s.faults c with
  | some e => rfl
  | none =>
    rcases ha : s.api c with ⟨r, s'⟩
    rfl

/-- The branch-existence probe issues exactly the one ref-lookup. -/
theorem branchExists_trace (s : RemoteState) (owner repo branch : String) :
    (branchExists s owner repo branch).2.2 = [.getRef owner repo ("heads/" ++ branch)] := by
  unfold branchExists
  rcases hc : callApi s (.getRef owner repo ("heads/" ++ branch)) with ⟨res, s', t⟩
  have ht : t = [ApiCall.getRef owner repo ("heads/" ++ branch)] := by
    have h := callApi_trace s (.getRef owner repo ("heads/" ++ branch))
    rw [hc] at h
    exact h
  cases res with
  | ok v => simp [ht]
  | error e => by_cases h404 : e.statusField = some 404 <;> simp [ht, h404]

/-- The default-branch read issues exactly the one repository read. -/
theorem getDefaultBranchApi_trace (s : RemoteState) (owner repo : String) :
    (getDefaultBranchApi s owner repo).2.2 = [.getRepo owner repo] := by
  unfold getDefaultBranchApi
  rcases hc : callApi s (.getRepo owner repo) with ⟨res, s', t⟩
  have ht : t = [ApiCall.getRepo owner repo] := by
    have h := callApi_trace s (.getRepo owner repo)
    rw [hc] at h
    exact h
  cases res with
  | ok v => simp [ht]
  | error e => simp [ht]

/-- Branch creation from the default branch only issues ensure-step verbs
(repository read, ref-lookups, ref creation). -/
theorem createBranchApi_none_verbs (s : RemoteState) (owner repo branch : String) :
    ∀ c ∈ (createBranchApi s owner repo branch none).2.2, c.isEnsureVerb = true := by
  intro c hc
  unfold createBranchApi at hc
  rcases hgd : getDefaultBranchApi s owner repo with ⟨src, s₁, t₁⟩
  have ht₁ : t₁ = [ApiCall.getRepo owner repo] := by
    have h := getDefaultBranchApi_trace s owner repo
    rw [hgd] at h
    exact h
  rw [hgd] at hc
  cases src with
  | error e =>
    simp only [ht₁, List.mem_singleton] at hc
    subst hc
    rfl
  | ok sourceBranch =>
    dsimp only at hc
    rcases h2 : callApi s₁ (.getRef owner repo ("heads/" ++ sourceBranch)) with ⟨r2, s2, t2⟩
    have ht₂ : t2 = [ApiCall.getRef owner repo ("heads/" ++ sourceBranch)] := by
      have h := callApi_trace s₁ (.getRef owner repo ("heads/" ++ sourceBranch))
      rw [h2] at h
      exact h
    rw [h2] at hc
    cases r2 with
    | error e =>
      simp only [ht₁, ht₂, List.mem_append, List.mem_singleton] at hc
      rcases hc with rfl | rfl <;> rfl
    | ok refData =>
      dsimp only at hc
      rcases h3 : callApi s2 (.createRef owner repo ("refs/heads/" ++ branch)
          refData.refShaOf) with ⟨r3, s3, t3⟩
      have ht₃ : t3 = [ApiCall.createRef owner repo ("refs/heads/" ++ branch)
          refData.refShaOf] := by
        have h := callApi_trace s2 (.createRef owner repo ("refs/heads/" ++ branch)
          refData.refShaOf)
        rw [h3] at h
        exact h
      rw [h3] at hc
      cases r3 with
      | error e =>
        simp only [ht₁, ht₂, ht₃, List.mem_append, List.mem_singleton] at hc
        rcases hc with (rfl | rfl) | rfl <;> rfl
      | ok d =>
        simp only [ht₁, ht₂, ht₃, List.mem_append, List.mem_singleton] at hc
        rcases hc with (rfl | rfl) | rfl <;> rfl

/-- The whole branch-ensure step only issues ensure-step verbs: no
commit-read, no content probe, no tree-create, commit-create or
ref-update. -/
theorem ensureBranchStep_verbs (s : RemoteState) (owner repo branch : String) :
    ∀ c ∈ (ensureBranchStep s owner repo branch).2.2, c.isEnsureVerb = true := by
  intro c hc
  unfold ensureBranchStep at hc
  rcases hbe : branchExists s owner repo branch with ⟨res, s₁, t₁⟩
  have ht₁ : t₁ = [ApiCall.getRef owner repo ("heads/" ++ branch)] := by
    have h := branchExists_trace s owner repo branch
    rw [hbe] at h
    exact h
  rw [hbe] at hc
  cases res with
  | error e =>
    simp only [ht₁, List.mem_singleton] at hc
    subst hc
    rfl
  | ok existed =>
    cases existed with
    | true =>
      simp only [ht₁, List.mem_singleton] at hc
      subst hc
      rfl
    | false =>
      dsimp only at hc
      rcases hcb : createBranchApi s₁ owner repo branch none with ⟨rc, s₂, t₂⟩
      have hverbs : ∀ d ∈ t₂, ApiCall.isEnsureVerb d = true := by
        have h := createBranchApi_none_verbs s₁ owner repo branch
        rw [hcb] at h
        exact h
      rw [hcb] at hc
      cases rc with
      | error e =>
        simp only [ht₁, List.mem_append, List.mem_singleton] at hc
        rcases hc with rfl | hc
        · rfl
        · exact hverbs c hc
      | ok d =>
        simp only [ht₁, List.mem_append, List.mem_singleton] at hc
        rcases hc with rfl | hc
        · rfl
        · exact hverbs c hc

/-- Splitting the String.append of two strings into their character data. -/
theorem strMkData (s : String) : String.mk s.data = s := by
  cases s
  rfl

/-- A ref created under `refs/heads/<branch>` is stored under the key
`heads/<branch>` that getRef uses. -/
theorem refKeyOf_refsHeads (b : String) :
    refKeyOf ("refs/heads/" ++ b) = "heads/" ++ b := by
  have h1 : ("refs/heads/" ++ b).data =
      'r' :: 'e' :: 'f' :: 's' :: '/' :: ("heads/" ++ b).data := by
    cases b
    rfl
  unfold refKeyOf
  rw [h1]
  exact strMkData ("heads/" ++ b)

/-- Claim C9: every push-files run performs the whole branch-ensure step
strictly before any commit-engine call — the call trace is the ensure step's
trace, which contains only ensure-step verbs, followed by the engine's calls
— and the ensure step is idempotent: on a fault-free repository where the
branch is absent and the default branch resolves, a first call creates the
branch and reports existed = false, and a second identical call on the
resulting state reports existed = true, changes nothing, and neither call
errors. -/
theorem claim_C9_ensureBeforeEngineAndIdempotent :
    (∀ (s : RemoteState) (a : PushFilesArgs),
      ∃ rest,
        (pushFilesParsed s a).2.2 =
          (ensureBranchStep s a.owner a.repo a.branch).2.2 ++ rest ∧
        ∀ c ∈ (ensureBranchStep s a.owner a.repo a.branch).2.2, c.isEnsureVerb = true) ∧
    (∀ (s : RemoteState) (owner repo branch sha : String),
      s.faults = [] →
      assocLookup s.refs ("heads/" ++ branch) = none →
      assocLookup s.refs ("heads/" ++ s.defaultBranch) = some sha →
      ensureBranchStep s owner repo branch =
        (.ok false, { s with refs := ("heads/" ++ branch, sha) :: s.refs },
         [.getRef owner repo ("heads/" ++ branch), .getRepo owner repo,
          .getRef owner repo ("heads/" ++ s.defaultBranch),
          .createRef owner repo ("refs/heads/" ++ branch) sha]) ∧
      ensureBranchStep { s with refs := ("heads/" ++ branch, sha) :: s.refs }
          owner repo branch =
        (.ok true, { s with refs := ("heads/" ++ branch, sha) :: s.refs },
         [.getRef owner repo ("heads/" ++ branch)])) := by
  constructor
  · intro s a
    have hverbs := ensureBranchStep_verbs s a.owner a.repo a.branch
    rcases hE : ensureBranchStep s a.owner a.repo a.branch with ⟨res, s₁, t₁⟩
    rw [hE] at hverbs
    cases res with
    | error e =>
      exact ⟨[], by simp [pushFilesParsed, pushFilesInner, hE], hverbs⟩
    | ok existed =>
      rcases hG : pushFilesEngine s₁ a with ⟨r', s', t'⟩
      exact ⟨t', by simp [pushFilesParsed, pushFilesInner, hE, hG], hverbs⟩
  · intro s owner repo branch sha hf habs hdef
    have hf0 : ∀ c, lookupFault s.faults c = none := by
      intro c
      rw [hf]
      rfl
    have hbe : branchExists s owner repo branch =
        (.ok false, s, [.getRef owner repo ("heads/" ++ branch)]) := by
      simp [branchExists, callApi, hf0, RemoteState.api, habs, notFoundErr,
        JsError.statusField]
    have hgd : getDefaultBranchApi s owner repo =
        (.ok s.defaultBranch, s, [.getRepo owner repo]) := by
      simp [getDefaultBranchApi, callApi, hf0, RemoteState.api, ApiResp.defaultBranchOf]
    have hgr : callApi s (.getRef owner repo ("heads/" ++ s.defaultBranch)) =
        (.ok (.ref sha), s, [.getRef owner repo ("heads/" ++ s.defaultBranch)]) := by
      simp [callApi, hf0, RemoteState.api, hdef]
    have hcr : callApi s (.createRef owner repo ("refs/heads/" ++ branch) sha) =
        (.ok (.ref sha), { s with refs := ("heads/" ++ branch, sha) :: s.refs },
         [.createRef owner repo ("refs/heads/" ++ branch) sha]) := by
      simp [callApi, hf0, RemoteState.api, refKeyOf_refsHeads, habs]
    constructor
    · simp [ensureBranchStep, hbe, createBranchApi, hgd, hgr, hcr, ApiResp.refShaOf]
    · exact ensureBranchStep_existing
        { s with refs := ("heads/" ++ branch, sha) :: s.refs } owner repo branch sha
        (by simp [hf, lookupFault]) (by simp [assocLookup])

/-- Witness for C9: the ordering decomposition on the demo run, and the
double ensure on the demo repository for the absent branch `feature-x`. -/
theorem claim_C9_ensureBeforeEngineAndIdempotent_witness :
    (∃ rest,
      (pushFilesParsed demoState demoArgs).2.2 =
        (ensureBranchStep demoState "acme" "widgets" "main").2.2 ++ rest ∧
      ∀ c ∈ (ensureBranchStep demoState "acme" "widgets" "main").2.2,
        c.isEnsureVerb = true) ∧
    (ensureBranchStep demoState "acme" "widgets" "feature-x" =
      (.ok false, { demoState with refs := [("heads/feature-x", "c0"), ("heads/main", "c0")] },
       [.getRef "acme" "widgets" "heads/feature-x", .getRepo "acme" "widgets",
        .getRef "acme" "widgets" "heads/main",
        .createRef "acme" "widgets" "refs/heads/feature-x" "c0"]) ∧
     ensureBranchStep { demoState with refs := [("heads/feature-x", "c0"), ("heads/main", "c0")] }
         "acme" "widgets" "feature-x" =
       (.ok true, { demoState with refs := [("heads/feature-x", "c0"), ("heads/main", "c0")] },
        [.getRef "acme" "widgets" "heads/feature-x"])) :=
  ⟨claim_C9_ensureBeforeEngineAndIdempotent.1 demoState demoArgs,
   claim_C9_ensureBeforeEngineAndIdempotent.2 demoState "acme" "widgets" "feature-x" "c0"
     rfl rfl rfl⟩

/-- Bind on a successful Except value. -/
theorem exceptBind_ok {ε α β : Type} (a : α) (f : α → Except ε β) :
    (Except.ok a >>= f) = f a := rfl

/-- Bind on a failed Except value. -/
theorem exceptBind_error {ε α β : Type} (e : ε) (f : α → Except ε β) :
    ((Except.error e : Except ε α) >>= f) = .error e := rfl

/-- Parsing a required string field that is absent yields the Required
issue. -/
theorem zReqString_none (msg : String) : zReqString msg none = .error "Required" := rfl

/-- Parsing the files field when it is absent yields the Required issue. -/
theorem zFilesField_none : zFilesField none = .error "Required" := rfl

/-- A push-files argument bag missing any of the five required fields is
rejected by PushFilesSchema. -/
theorem pushFilesParse_missingField (fields : List (String × JValue))
    (h : assocLookup fields "owner" = none ∨ assocLookup fields "repo" = none ∨
         assocLookup fields "branch" = none ∨ assocLookup fields "files" = none ∨
         assocLookup fields "message" = none) :
    ∃ m, PushFilesSchema.parse (.obj fields) = .error m := by
  rcases h with h | h | h | h | h
  · exact ⟨"Required", by simp [PushFilesSchema.parse, h, zReqString_none, exceptBind_error]⟩
  · cases ho : zReqString "Repository owner is required" (assocLookup fields "owner") with
    | error m =>
      exact ⟨m, by simp [PushFilesSchema.parse, ho, exceptBind_error]⟩
    | ok ow =>
      exact ⟨"Required", by
        simp [PushFilesSchema.parse, ho, exceptBind_ok, h, zReqString_none, exceptBind_error]⟩
  · cases ho : zReqString "Repository owner is required" (assocLookup fields "owner") with
    | error m =>
      exact ⟨m, by simp [PushFilesSchema.parse, ho, exceptBind_error]⟩
    | ok ow =>
      cases hr : zReqString "Repository name is required" (assocLookup fields "repo") with
      | error m =>
        exact ⟨m, by simp [PushFilesSchema.parse, ho, hr, exceptBind_ok, exceptBind_error]⟩
      | ok re =>
        exact ⟨"Required", by
          simp [PushFilesSchema.parse, ho, hr, exceptBind_ok, h, zReqString_none,
            exceptBind_error]⟩
  · cases ho : zReqString "Repository owner is required" (assocLookup fields "owner") with
    | error m =>
      exact ⟨m, by simp [PushFilesSchema.parse, ho, exceptBind_error]⟩
    | ok ow =>
      cases hr : zReqString "Repository name is required" (assocLookup fields "repo") with
      | error m =>
        exact ⟨m, by simp [PushFilesSchema.parse, ho, hr, exceptBind_ok, exceptBind_error]⟩
      | ok re =>
        cases hb : zReqString "Branch name is required" (assocLookup fields "branch") with
        | error m =>
          exact ⟨m, by
            simp [PushFilesSchema.parse, ho, hr, hb, exceptBind_ok, exceptBind_error]⟩
        | ok br =>
          exact ⟨"Required", by
            simp [PushFilesSchema.parse, ho, hr, hb, exceptBind_ok, h, zFilesField_none,
              exceptBind_error]⟩
  · cases ho : zReqString "Repository owner is required" (assocLookup fields "owner") with
    | error m =>
      exact ⟨m, by simp [PushFilesSchema.parse, ho, exceptBind_error]⟩
    | ok ow =>
      cases hr : zReqString "Repository name is required" (assocLookup fields "repo") with
      | error m =>
        exact ⟨m, by simp [PushFilesSchema.parse, ho, hr, exceptBind_ok, exceptBind_error]⟩
      | ok re =>
        cases hb : zReqString "Branch name is required" (assocLookup fields "branch") with
        | error m =>
          exact ⟨m, by
            simp [PushFilesSchema.parse, ho, hr, hb, exceptBind_ok, exceptBind_error]⟩
        | ok br =>
          cases hfi : zFilesField (assocLookup fields "files") with
          | error m =>
            exact ⟨m, by
              simp [PushFilesSchema.parse, ho, hr, hb, hfi, exceptBind_ok,
                exceptBind_error]⟩
          | ok fl =>
            exact ⟨"Required", by
              simp [PushFilesSchema.parse, ho, hr, hb, hfi, exceptBind_ok, h,
                zReqString_none, exceptBind_error]⟩

/-- Claim C3 (amended): for the push-files operation an argument bag missing
a required field is rejected by the Validator before any Remote Client
Adapter call is made (the trace is empty and the state untouched); the
fork-repository and get-pull-request-files handlers, however, perform no
validation at all and issue their single adapter call for every argument bag,
including bags missing required fields. -/
theorem claim_C3_validationBeforeRemoteCalls :
    (∀ (s : RemoteState) (fields : List (String × JValue)),
      (assocLookup fields "owner" = none ∨ assocLookup fields "repo" = none ∨
       assocLookup fields "branch" = none ∨ assocLookup fields "files" = none ∨
       assocLookup fields "message" = none) →
      ∃ m, pushFilesRun s (.obj fields) = (.error (.zodErr m), s, [])) ∧
    (∀ (s : RemoteState) (v : JValue),
      (forkRepositoryRun s v).2.2 =
        [.createFork ((assocLookup v.fieldsOf "owner").bind JValue.asString)
          ((assocLookup v.fieldsOf "repo").bind JValue.asString)
          ((assocLookup v.fieldsOf "organization").bind JValue.asString)]) ∧
    (∀ (s : RemoteState) (v : JValue),
      (getPullRequestFilesRun s v).2.2 =
        [.listPullFiles ((assocLookup v.fieldsOf "owner").bind JValue.asString)
          ((assocLookup v.fieldsOf "repo").bind JValue.asString)
          ((assocLookup v.fieldsOf "pull_number").bind JValue.asInt)]) := by
  refine ⟨?_, ?_, ?_⟩
  · intro s fields h
    obtain ⟨m, hm⟩ := pushFilesParse_missingField fields h
    exact ⟨m, by simp [pushFilesRun, hm]⟩
  · intro s v
    unfold forkRepositoryRun
    rcases hc : callApi s (.createFork ((assocLookup v.fieldsOf "owner").bind JValue.asString)
        ((assocLookup v.fieldsOf "repo").bind JValue.asString)
        ((assocLookup v.fieldsOf "organization").bind JValue.asString)) with ⟨r, s₁, t₁⟩
    have ht : t₁ = [ApiCall.createFork ((assocLookup v.fieldsOf "owner").bind JValue.asString)
        ((assocLookup v.fieldsOf "repo").bind JValue.asString)
        ((assocLookup v.fieldsOf "organization").bind JValue.asString)] := by
      have h := callApi_trace s (.createFork ((assocLookup v.fieldsOf "owner").bind JValue.asString)
        ((assocLookup v.fieldsOf "repo").bind JValue.asString)
        ((assocLookup v.fieldsOf "organization").bind JValue.asString))
      rw [hc] at h
      exact h
    cases r with
    | error e => cases e <;> simp [hc, ht, tryCatchAsync]
    | ok u => simp [hc, ht, tryCatchAsync]
  · intro s v
    unfold getPullRequestFilesRun
    rcases hc : callApi s (.listPullFiles ((assocLookup v.fieldsOf "owner").bind JValue.asString)
        ((assocLookup v.fieldsOf "repo").bind JValue.asString)
        ((assocLookup v.fieldsOf "pull_number").bind JValue.asInt)) with ⟨r, s₁, t₁⟩
    have ht : t₁ = [ApiCall.listPullFiles ((assocLookup v.fieldsOf "owner").bind JValue.asString)
        ((assocLookup v.fieldsOf "repo").bind JValue.asString)
        ((assocLookup v.fieldsOf "pull_number").bind JValue.asInt)] := by
      have h := callApi_trace s (.listPullFiles ((assocLookup v.fieldsOf "owner").bind JValue.asString)
        ((assocLookup v.fieldsOf "repo").bind JValue.asString)
        ((assocLookup v.fieldsOf "pull_number").bind JValue.asInt))
      rw [hc] at h
      exact h
    cases r with
    | error e => cases e <;> simp [hc, ht, tryCatchAsync]
    | ok u => simp [hc, ht, tryCatchAsync]

/-- Claim C3 counterexample: the empty argument bag misses the required
`owner` of the fork-repository operation, yet dispatching fork-repository on
it issues one Remote Client Adapter call (createFork) instead of zero. -/
theorem claim_C3_counterexample :
    assocLookup (JValue.obj []).fieldsOf "owner" = none ∧
    (forkRepositoryRun demoState (.obj [])).2.2 = [.createFork none none none] ∧
    (forkRepositoryRun demoState (.obj [])).2.2.length = 1 :=
  ⟨rfl, rfl, rfl⟩

/-- Witness for the amended C3: push-files on the empty bag is rejected with
an empty trace. -/
theorem claim_C3_validationBeforeRemoteCalls_witness :
    assocLookup ([] : List (String × JValue)) "owner" = none ∧
    (∃ m, pushFilesRun demoState (.obj []) = (.error (.zodErr m), demoState, [])) :=
  ⟨rfl, claim_C3_validationBeforeRemoteCalls.1 demoState [] (Or.inl rfl)⟩

/-- Every Unicode scalar value is below 0x110000. -/
theorem char_toNat_lt (c : Char) : c.toNat < 1114112 := by
  rcases c.valid with h | h
  · exact Nat.lt_trans h (by decide)
  · exact h.2

/-- UTF-8 encoding produces bytes. -/
theorem utf8EncodeChar_lt256 (c : Char) : ∀ b ∈ utf8EncodeChar c, b < 256 := by
  intro b hb
  have hlt : c.toNat < 1114112 := char_toNat_lt c
  unfold utf8EncodeChar at hb
  by_cases h1 : c.toNat < 128
  · rw [if_pos h1] at hb
    simp only [List.mem_singleton] at hb
    omega
  · rw [if_neg h1] at hb
    by_cases h2 : c.toNat < 2048
    · rw [if_pos h2] at hb
      simp only [List.mem_cons, List.not_mem_nil, or_false] at hb
      rcases hb with rfl | rfl <;> omega
    · rw [if_neg h2] at hb
      by_cases h3 : c.toNat < 65536
      · rw [if_pos h3] at hb
        simp only [List.mem_cons, List.not_mem_nil, or_false] at hb
        rcases hb with rfl | rfl | rfl <;> omega
      · rw [if_neg h3] at hb
        simp only [List.mem_cons, List.not_mem_nil, or_false] at hb
        rcases hb with rfl | rfl | rfl | rfl <;> omega

/-- UTF-8 encoding of a character list produces bytes. -/
theorem utf8Encode_lt256 (l : List Char) : ∀ b ∈ utf8Encode l, b < 256 := by
  intro b hb
  rw [utf8Encode, List.mem_flatten] at hb
  obtain ⟨bs, hbs, hb⟩ := hb
  obtain ⟨c, _, rfl⟩ := List.mem_map.1 hbs
  exact utf8EncodeChar_lt256 c b hb

/-- The base64 alphabet indexes its own characters. -/
theorem b64Index_b64Char : ∀ v : Nat, v < 64 → b64Index (b64Char v) = some v := by decide

/-- No alphabet character is the padding character. -/
theorem b64Char_ne_pad : ∀ v : Nat, v < 64 → b64Char v ≠ '=' := by decide

/-- Base64 decoding inverts base64 encoding on byte lists. -/
theorem base64_roundtrip : ∀ l : List Nat, (∀ b ∈ l, b < 256) →
    base64Decode (base64Encode l) = l
  | [], _ => rfl
  | [b0], h => by
    have h0 : b0 < 256 := h b0 (by simp)
    have e0 : b64Index (b64Char (b0 / 4)) = some (b0 / 4) :=
      b64Index_b64Char _ (by omega)
    have e1 : b64Index (b64Char (b0 % 4 * 16)) = some (b0 % 4 * 16) :=
      b64Index_b64Char _ (by omega)
    rw [show base64Encode [b0] =
      [b64Char (b0 / 4), b64Char (b0 % 4 * 16), '=', '='] from rfl]
    simp only [base64Decode, e0, e1, if_pos]
    simp only [List.cons.injEq, and_true]
    omega
  | [b0, b1], h => by
    have h0 : b0 < 256 := h b0 (by simp)
    have h1 : b1 < 256 := h b1 (by simp)
    have e0 : b64Index (b64Char (b0 / 4)) = some (b0 / 4) :=
      b64Index_b64Char _ (by omega)
    have e1 : b64Index (b64Char (b0 % 4 * 16 + b1 / 16)) = some (b0 % 4 * 16 + b1 / 16) :=
      b64Index_b64Char _ (by omega)
    have e2 : b64Index (b64Char (b1 % 16 * 4)) = some (b1 % 16 * 4) :=
      b64Index_b64Char _ (by omega)
    have ne2 : b64Char (b1 % 16 * 4) ≠ '=' := b64Char_ne_pad _ (by omega)
    rw [show base64Encode [b0, b1] =
      [b64Char (b0 / 4), b64Char (b0 % 4 * 16 + b1 / 16), b64Char (b1 % 16 * 4), '='] from rfl]
    simp only [base64Decode, e0, e1, e2, ne2, if_neg, if_pos, ite_false, ite_true]
    simp only [List.cons.injEq, and_true]
    omega
  | b0 :: b1 :: b2 :: rest, h => by
    have h0 : b0 < 256 := h b0 (by simp)
    have h1 : b1 < 256 := h b1 (by simp)
    have h2 : b2 < 256 := h b2 (by simp)
    have ih := base64_roundtrip rest (fun b hb => h b (by simp [hb]))
    have e0 : b64Index (b64Char (b0 / 4)) = some (b0 / 4) :=
      b64Index_b64Char _ (by omega)
    have e1 : b64Index (b64Char (b0 % 4 * 16 + b1 / 16)) = some (b0 % 4 * 16 + b1 / 16) :=
      b64Index_b64Char _ (by omega)
    have e2 : b64Index (b64Char (b1 % 16 * 4 + b2 / 64)) = some (b1 % 16 * 4 + b2 / 64) :=
      b64Index_b64Char _ (by omega)
    have e3 : b64Index (b64Char (b2 % 64)) = some (b2 % 64) :=
      b64Index_b64Char _ (by omega)
    have ne2 : b64Char (b1 % 16 * 4 + b2 / 64) ≠ '=' := b64Char_ne_pad _ (by omega)
    have ne3 : b64Char (b2 % 64) ≠ '=' := b64Char_ne_pad _ (by omega)
    rw [show base64Encode (b0 :: b1 :: b2 :: rest) =
      b64Char (b0 / 4) :: b64Char (b0 % 4 * 16 + b1 / 16) ::
        b64Char (b1 % 16 * 4 + b2 / 64) :: b64Char (b2 % 64) :: base64Encode rest from rfl]
    simp only [base64Decode, e0, e1, e2, e3, ne2, ne3, if_neg, if_pos, ite_false, ite_true, ih]
    simp only [List.cons.injEq, and_true]
    omega

/-- Every encoded character occupies at least one byte. -/
theorem one_le_encodeChar_length (c : Char) : 1 ≤ (utf8EncodeChar c).length := by
  unfold utf8EncodeChar
  by_cases h1 : c.toNat < 128
  · simp [h1]
  · by_cases h2 : c.toNat < 2048
    · simp [h1, h2]
    · by_cases h3 : c.toNat < 65536 <;> simp [h1, h2, h3]

/-- Encoding distributes over cons. -/
theorem utf8Encode_cons (c : Char) (cs : List Char) :
    utf8Encode (c :: cs) = utf8EncodeChar c ++ utf8Encode cs := by
  simp [utf8Encode]

/-- Decoding the encoding of one character prepended to any byte tail
recovers the character and continues with the tail, spending one unit of
fuel. -/
theorem utf8DecodeAux_encodeChar (c : Char) (X : List Nat) (fuel : Nat) :
    utf8DecodeAux (fuel + 1) (utf8EncodeChar c ++ X) = c :: utf8DecodeAux fuel X := by
  have hlt : c.toNat < 1114112 := char_toNat_lt c
  have hOf : Char.ofNat c.toNat = c := Char.ofNat_toNat c
  unfold utf8EncodeChar
  by_cases h1 : c.toNat < 128
  · rw [if_pos h1]
    show utf8DecodeAux (fuel + 1) (c.toNat :: X) = c :: utf8DecodeAux fuel X
    simp only [utf8DecodeAux, utf8DecodeStep]
    rw [if_pos h1]
    simp only [hOf]
  · rw [if_neg h1]
    by_cases h2 : c.toNat < 2048
    · rw [if_pos h2]
      show utf8DecodeAux (fuel + 1) ((192 + c.toNat / 64) :: ((128 + c.toNat % 64) :: X)) =
        c :: utf8DecodeAux fuel X
      simp only [utf8DecodeAux, utf8DecodeStep]
      rw [if_neg (by omega), if_pos (by omega)]
      have harg : (192 + c.toNat / 64 - 192) * 64 + (128 + c.toNat % 64 - 128) = c.toNat := by
        omega
      simp only [harg, hOf]
    · rw [if_neg h2]
      by_cases h3 : c.toNat < 65536
      · rw [if_pos h3]
        show utf8DecodeAux (fuel + 1) ((224 + c.toNat / 4096) ::
            ((128 + c.toNat / 64 % 64) :: ((128 + c.toNat % 64) :: X))) =
          c :: utf8DecodeAux fuel X
        simp only [utf8DecodeAux, utf8DecodeStep]
        rw [if_neg (by omega), if_neg (by omega), if_pos (by omega)]
        have harg : (224 + c.toNat / 4096 - 224) * 4096 +
            (128 + c.toNat / 64 % 64 - 128) * 64 + (128 + c.toNat % 64 - 128) = c.toNat := by
          omega
        simp only [harg, hOf]
      · rw [if_neg h3]
        show utf8DecodeAux (fuel + 1) ((240 + c.toNat / 262144) ::
            ((128 + c.toNat / 4096 % 64) ::
              ((128 + c.toNat / 64 % 64) :: ((128 + c.toNat % 64) :: X)))) =
          c :: utf8DecodeAux fuel X
        simp only [utf8DecodeAux, utf8DecodeStep]
        rw [if_neg (by omega), if_neg (by omega), if_neg (by omega)]
        have harg : (240 + c.toNat / 262144 - 240) * 262144 +
            (128 + c.toNat / 4096 % 64 - 128) * 4096 +
            (128 + c.toNat / 64 % 64 - 128) * 64 + (128 + c.toNat % 64 - 128) = c.toNat := by
          omega
        simp only [harg, hOf]

/-- With enough fuel the decoding loop inverts encoding. -/
theorem utf8DecodeAux_roundtrip :
    ∀ (l : List Char) (fuel : Nat), (utf8Encode l).length ≤ fuel →
      utf8DecodeAux fuel (utf8Encode l) = l := by
  intro l
  induction l with
  | nil => intro fuel _; cases fuel <;> rfl
  | cons c cs ih =>
    intro fuel hfuel
    rw [utf8Encode_cons] at hfuel ⊢
    cases fuel with
    | zero =>
      exfalso
      have h1 := one_le_encodeChar_length c
      rw [List.length_append] at hfuel
      omega
    | succ f =>
      rw [utf8DecodeAux_encodeChar]
      have hle : (utf8Encode cs).length ≤ f := by
        have h1 := one_le_encodeChar_length c
        rw [List.length_append] at hfuel
        omega
      rw [ih f hle]

/-- UTF-8 decoding inverts UTF-8 encoding on character lists. -/
theorem utf8_roundtrip (l : List Char) : utf8Decode (utf8Encode l) = l :=
  utf8DecodeAux_roundtrip l (utf8Encode l).length (Nat.le_refl _)

/-- Claim C7: writing any string through the file-content-write encoding
(utf8ToBase64) and reading it back through the file-content-read decoding
(base64ToUtf8) yields the identical string: base64ToUtf8 (utf8ToBase64 s)
equals s for every s. -/
theorem claim_C7_contentRoundTrip : ∀ s : String, base64ToUtf8 (utf8ToBase64 s) = s := by
  intro s
  unfold utf8ToBase64 base64ToUtf8
  show String.mk (utf8Decode (base64Decode (base64Encode (utf8Encode s.data)))) = s
  rw [base64_roundtrip (utf8Encode s.data) (utf8Encode_lt256 s.data), utf8_roundtrip,
    strMkData]

end GhMcp
